import Mathlib

/-!
Verification of the Spice compiler frontend (semantic-analysis pipeline).

Each definition in this file is a shallow embedding of a Python function of
the repository, translated clause by clause.  Python `dict`s are modelled as
association lists where insertion replaces the value of an existing key in
place (preserving dict insertion order) and appends new keys at the end,
matching CPython semantics.  `Optional[str]` becomes `Option String`.
-/

namespace Spice

/-- Association-list lookup: first entry with the given key (keys are unique
because `aset` replaces in place). Models Python `dict.get`. -/
def alookup {α : Type} (m : List (String × α)) (k : String) : Option α :=
  match m with
  | [] => none
  | (k2, v) :: rest => if k2 = k then some v else alookup rest k

/-- Association-list insert with Python-dict semantics: replace in place if
the key exists, else append at the end. Models `d[k] = v`. -/
def aset {α : Type} (m : List (String × α)) (k : String) (v : α) : List (String × α) :=
  match m with
  | [] => [(k, v)]
  | (k2, w) :: rest => if k2 = k then (k2, v) :: rest else (k2, w) :: aset rest k v

/-- Models Python `dict.setdefault(k, v)`: keep the existing entry if present,
otherwise append `(k, v)`. -/
def asetdefault {α : Type} (m : List (String × α)) (k : String) (v : α) :
    List (String × α) :=
  if (alookup m k).isSome then m else m ++ [(k, v)]

/-- Keys of an association list in order. -/
def akeys {α : Type} (m : List (String × α)) : List String := m.map Prod.fst

/-- From `spice/parser/ast_nodes.py`: `Parameter{name, type_annotation}`
(the `default` field is never consulted by the passes verified here). -/
structure Parameter where
  name : String
  typeAnnot : Option String
deriving DecidableEq, Repr

/-- From `ast_nodes.py`: `MethodSignature{name, params, return_type}`. -/
structure MethodSignature where
  name : String
  params : List Parameter
  returnType : Option String
deriving DecidableEq, Repr

/-- Expression nodes of the Spice AST (`ast_nodes.py`), restricted to the
variants the semantic passes inspect; every node carries line/column. -/
inductive Expr where
  | identifier (name : String) (line column : Nat)
  | literal (literalType : String) (line column : Nat)
  | attribute (obj : Expr) (attr : String) (line column : Nat)
  | call (callee : Expr) (args : List Expr) (line column : Nat)
  | assignment (target : Expr) (value : Option Expr) (typeAnnot : Option String)
      (line column : Nat)
deriving Repr

/-- Statement/declaration nodes of the Spice AST, restricted to the variants
the semantic passes inspect. `FunctionDeclaration` bodies that Python stores
as `None` are represented by the empty list (the passes only iterate them). -/
inductive Node where
  | classDecl (name : String) (typeParameters : List String) (bases : List String)
      (interfaces : List String) (body : List Node) (isFinal : Bool) (line column : Nat)
  | funcDecl (name : String) (params : List Parameter) (body : List Node)
      (returnType : Option String) (isFinal : Bool) (line column : Nat)
  | interfaceDecl (name : String) (methods : List MethodSignature) (line column : Nat)
  | exprStmt (e : Expr) (line column : Nat)
  | finalDecl (target : Expr) (typeAnnot : Option String) (line column : Nat)
  | passStmt
deriving Repr

/-- From `interface_checker.py`: `CheckError{message, line, column}`. -/
structure CheckError where
  message : String
  line : Nat
  column : Nat
deriving DecidableEq, Repr

/-- `str(t)` applied to an `Optional[str]` argument type, as used when the
type checker formats `No overload ...` diagnostics: `None` prints as "None". -/
def optTypeStr (o : Option String) : String :=
  match o with
  | none => "None"
  | some s => s

/-- Python `", ".join(xs)`. -/
def joinComma (xs : List String) : String :=
  match xs with
  | [] => ""
  | [x] => x
  | x :: rest => x ++ ", " ++ joinComma rest

mutual

/-- Executable size of a node, used only to seed fuel for the fuelled
traversals; it dominates the depth of any visitor call chain. -/
def nodeSize : Node → Nat
  | Node.classDecl _ _ _ _ body _ _ _ => 1 + nodeListSize body
  | Node.funcDecl _ _ body _ _ _ _ => 1 + nodeListSize body
  | _ => 1

/-- Executable size of a node list. -/
def nodeListSize : List Node → Nat
  | [] => 1
  | n :: rest => 1 + nodeSize n + nodeListSize rest

end

end Spice

namespace Spice.SymbolTableM

/-- From `symbol_table.py`: `VariableSymbol{name, type_annotation}` (the
`node` and `generic_bindings` fields are not consulted by the checkers). -/
structure VariableSymbol where
  name : String
  typeAnnot : Option String
deriving DecidableEq, Repr

/-- From `symbol_table.py`: `FunctionSymbol{name, params, return_type, scope}`. -/
structure FunctionSymbol where
  name : String
  params : List Parameter
  returnType : Option String
  scope : String
deriving DecidableEq, Repr

/-- From `symbol_table.py`: `ScopeSymbol{name, parent, variables, functions}`. -/
structure ScopeSymbol where
  name : String
  parent : Option String
  vars : List (String × VariableSymbol)
  functions : List (String × List FunctionSymbol)
deriving DecidableEq, Repr

/-- From `symbol_table.py`: `ClassSymbol{name, methods, scope, type_parameters}`. -/
structure ClassSymbol where
  name : String
  methods : List (String × List FunctionSymbol)
  scope : String
  typeParameters : List String
deriving DecidableEq, Repr

/-- From `symbol_table.py`: `SymbolTable{scopes, classes, interfaces}`; a fresh
table holds only the `global` scope. Interface symbols are reduced to the
interface name (the stored node is not consulted by any checker). -/
structure SymbolTable where
  scopes : List (String × ScopeSymbol)
  classes : List (String × ClassSymbol)
  interfaces : List String
deriving DecidableEq, Repr

/-- `SymbolTable.__init__`. -/
def SymbolTable.empty : SymbolTable :=
  { scopes := [("global", { name := "global", parent := none, vars := [], functions := [] })]
    classes := []
    interfaces := [] }

/-- `SymbolTable.ensure_scope(name, parent)`. -/
def ensureScope (t : SymbolTable) (name : String) (parent : Option String) : SymbolTable :=
  match alookup t.scopes name with
  | some _ => t
  | none =>
      let sc : ScopeSymbol := { name := name, parent := parent, vars := [], functions := [] }
      { t with scopes := aset t.scopes name sc }

end Spice.SymbolTableM

namespace Spice.TypeChecker

open Spice.SymbolTableM

/-- From `type_checker.py` `_literal_to_type`: the literal-kind mapping. -/
def literalToType (literalType : String) : Option String :=
  if literalType = "string" then some "str"
  else if literalType = "number" then some "int"
  else if literalType = "boolean" then some "bool"
  else none

/-- Loop body of `TypeChecker._lookup_variable`: walk the scope parent chain.
The fuel bound is irrelevant on the acyclic parent chains the builder
produces; it only makes the Python `while` loop total. -/
def lookupVariableAux (t : SymbolTable) (name : String) :
    Nat → Option String → Option VariableSymbol
  | _, none => none
  | 0, some _ => none
  | fuel + 1, some scopeName =>
      match alookup t.scopes scopeName with
      | none => none
      | some sc =>
          match alookup sc.vars name with
          | some v => some v
          | none => lookupVariableAux t name fuel sc.parent

/-- `TypeChecker._lookup_variable(name)` starting from the current scope. -/
def lookupVariable (t : SymbolTable) (cur : String) (name : String) :
    Option VariableSymbol :=
  lookupVariableAux t name (t.scopes.length + 1) (some cur)

/-- The `for func in ...: if func.return_type: return func.return_type` loops
of `_infer_call_return`: first symbol with a declared return type. -/
def firstReturnType : List FunctionSymbol → Option String
  | [] => none
  | f :: rest =>
      match f.returnType with
      | some r => some r
      | none => firstReturnType rest

mutual

/-- `TypeChecker._infer_expression_type`. -/
def inferExpressionType (t : SymbolTable) (cur : String) : Expr → Option String
  | Expr.identifier n _ _ =>
      match lookupVariable t cur n with
      | some sym => sym.typeAnnot
      | none => none
  | Expr.literal lt _ _ => literalToType lt
  | Expr.assignment _ _ _ _ _ => none
  | Expr.call callee _ _ _ => inferCallReturn t cur callee
  | Expr.attribute obj attr _ _ => inferAttributeType t cur obj attr

/-- `TypeChecker._infer_call_return`, taking the call's callee. -/
def inferCallReturn (t : SymbolTable) (cur : String) : Expr → Option String
  | Expr.identifier n _ _ =>
      if (alookup t.classes n).isSome then some n
      else
        match alookup t.scopes "global" with
        | some sc => firstReturnType ((alookup sc.functions n).getD [])
        | none => none
  | Expr.attribute obj attr _ _ =>
      match inferExpressionType t cur obj with
      | some objType =>
          match alookup t.classes objType with
          | some cs => firstReturnType ((alookup cs.methods attr).getD [])
          | none => none
      | none => none
  | _ => none

/-- `TypeChecker._infer_attribute_type`. -/
def inferAttributeType (t : SymbolTable) (cur : String) (obj : Expr) (attr : String) :
    Option String :=
  match inferExpressionType t cur obj with
  | none => none
  | some objType =>
      match alookup t.classes objType with
      | some cs =>
          match alookup t.scopes cs.name with
          | some vscope =>
              match alookup vscope.vars attr with
              | some v => v.typeAnnot
              | none => none
          | none => none
      | none => none

end

/-- The `for arg_type, param in zip(...)` loop of
`TypeChecker._arguments_match_generic`, threading the `inferred` dict. -/
def matchPairs (typeParams : List String) :
    List (Option String × Parameter) → List (String × String) →
    Option (List (String × String))
  | [], inferred => some inferred
  | (argType, param) :: rest, inferred =>
      match param.typeAnnot, argType with
      | none, _ => none
      | some _, none => none
      | some paramType, some argTy =>
          if typeParams.contains paramType then
            match alookup inferred paramType with
            | some bound =>
                if bound = argTy then matchPairs typeParams rest inferred else none
            | none => matchPairs typeParams rest (aset inferred paramType argTy)
          else
            if argTy = paramType then matchPairs typeParams rest inferred else none

/-- `TypeChecker._arguments_match_generic(arg_types, params, type_params,
existing_bindings)`: `none` means no match; `some nb` returns the newly
inferred bindings (existing keys filtered out, insertion order kept). -/
def argumentsMatchGeneric (argTypes : List (Option String)) (params : List Parameter)
    (typeParams : List String) (existingBindings : List (String × String)) :
    Option (List (String × String)) :=
  if argTypes.length = params.length then
    match matchPairs typeParams (argTypes.zip params) existingBindings with
    | none => none
    | some inferred =>
        some (inferred.filter (fun kv => (alookup existingBindings kv.fst).isNone))
  else none

/-- `TypeChecker._resolve_callee`: `(functions, owner_type, variable_name)`. -/
def resolveCallee (t : SymbolTable) (cur : String) (callee : Expr) :
    Option (List FunctionSymbol × Option String × Option String) :=
  match callee with
  | Expr.identifier n _ _ =>
      match alookup t.scopes "global" with
      | some sc => some ((alookup sc.functions n).getD [], none, none)
      | none => none
  | Expr.attribute obj attr _ _ =>
      let objType := inferExpressionType t cur obj
      let varName :=
        match obj with
        | Expr.identifier n2 _ _ => some n2
        | _ => none
      match objType with
      | some ot =>
          match alookup t.classes ot with
          | some cs => some ((alookup cs.methods attr).getD [], some ot, varName)
          | none => none
      | none => none
  | _ => none

/-- Mutable type-checker state: `errors`, `scope_stack` (head = top) and
`_generic_bindings : {var_name: {type_param: concrete}}`. -/
structure TCState where
  errors : List CheckError
  scopeStack : List String
  genericBindings : List (String × List (String × String))
deriving DecidableEq, Repr

/-- `TypeChecker._current_scope` (`scope_stack[-1]`; never empty in a run). -/
def currentScope (st : TCState) : String := st.scopeStack.headD "global"

/-- `TypeChecker._push_scope`. -/
def pushScope (st : TCState) (name : String) : TCState :=
  { st with scopeStack := name :: st.scopeStack }

/-- `TypeChecker._pop_scope` (pops only when more than one scope remains). -/
def popScope (st : TCState) : TCState :=
  if st.scopeStack.length > 1 then { st with scopeStack := st.scopeStack.tail } else st

/-- The `for func in functions` loop of `_check_call_expression`: first
overload whose arguments match. -/
def firstMatchingOverload (argTypes : List (Option String))
    (functions : List FunctionSymbol) (typeParams : List String)
    (existing : List (String × String)) : Option (List (String × String)) :=
  match functions with
  | [] => none
  | f :: rest =>
      match argumentsMatchGeneric argTypes f.params typeParams existing with
      | some nb => some nb
      | none => firstMatchingOverload argTypes rest typeParams existing

/-- Python `dict.update` over the association-list model. -/
def updateAll (base upd : List (String × String)) : List (String × String) :=
  upd.foldl (fun acc kv => aset acc kv.fst kv.snd) base

/-- `TypeChecker._check_call_expression`. `curLine`/`curCol` are the position
of `_current_node` (the enclosing expression statement). -/
def checkCallExpression (t : SymbolTable) (st : TCState) (curLine curCol : Nat)
    (callee : Expr) (args : List Expr) : TCState :=
  match resolveCallee t (currentScope st) callee with
  | none => st
  | some (functions, owner, varName) =>
      let argTypes := args.map (inferExpressionType t (currentScope st))
      match functions with
      | [] => st
      | f0 :: _ =>
          let typeParams :=
            match owner with
            | some o =>
                match alookup t.classes o with
                | some cs => cs.typeParameters
                | none => []
            | none => []
          let existing :=
            match owner with
            | some o =>
                if (alookup t.classes o).isSome then
                  match varName with
                  | some v => (alookup st.genericBindings v).getD []
                  | none => []
                else []
            | none => []
          match firstMatchingOverload argTypes functions typeParams existing with
          | some newBindings =>
              match varName with
              | some v =>
                  if newBindings ≠ [] then
                    let curB := (alookup st.genericBindings v).getD []
                    let newMap := aset st.genericBindings v (updateAll curB newBindings)
                    { st with genericBindings := newMap }
                  else st
              | none => st
          | none =>
              let argDesc := joinComma (argTypes.map optTypeStr)
              let ownerDesc :=
                match owner with
                | some o => o ++ "."
                | none => ""
              let err : CheckError :=
                { message := "No overload of " ++ ownerDesc ++ f0.name ++
                    " matches argument types (" ++ argDesc ++ ")"
                  line := curLine, column := curCol }
              { st with errors := st.errors ++ [err] }

/-- `TypeChecker._is_constructor_call`. -/
def isConstructorCall (t : SymbolTable) (callee : Expr) : Bool :=
  match callee with
  | Expr.identifier n _ _ => (alookup t.classes n).isSome
  | _ => false

/-- `TypeChecker._enforce_assignment_annotation`. -/
def enforceAssignAnnot (t : SymbolTable) (st : TCState)
    (curLine curCol : Nat) (target : Expr) (value : Option Expr) : TCState :=
  match target with
  | Expr.identifier tname _ _ =>
      let annotated :=
        match lookupVariable t (currentScope st) tname with
        | some sym => sym.typeAnnot.isSome
        | none => false
      if annotated then st
      else
        match value with
        | some (Expr.literal _ _ _) => st
        | some (Expr.call callee _ _ _) =>
            if isConstructorCall t callee then st
            else
              { st with errors := st.errors ++
                  [{ message := "Variable '" ++ tname ++
                      "' must declare a type annotation when assigned from non-literal expression"
                     line := curLine, column := curCol }] }
        | _ =>
            { st with errors := st.errors ++
                [{ message := "Variable '" ++ tname ++
                    "' must declare a type annotation when assigned from non-literal expression"
                   line := curLine, column := curCol }] }
  | _ => st

/-- `TypeChecker._visit_assignment` (call check on a call RHS, then the
annotation enforcement). -/
def visitAssignment (t : SymbolTable) (st : TCState) (curLine curCol : Nat)
    (target : Expr) (value : Option Expr) : TCState :=
  let st2 :=
    match value with
    | some (Expr.call callee args _ _) => checkCallExpression t st curLine curCol callee args
    | _ => st
  enforceAssignAnnot t st2 curLine curCol target value

/-- `TypeChecker._visit_expression_statement`: the statement's own position
becomes `_current_node`'s position for diagnostics. -/
def visitExpressionStatement (t : SymbolTable) (st : TCState) (e : Expr)
    (line column : Nat) : TCState :=
  match e with
  | Expr.call callee args _ _ => checkCallExpression t st line column callee args
  | Expr.assignment target value typeAnnot _ _ =>
      if typeAnnot = none then visitAssignment t st line column target value
      else st
  | _ => st

mutual

/-- `TypeChecker._visit_node` / `_visit_class` / `_visit_function`. -/
def visitNode (t : SymbolTable) (st : TCState) : Node → TCState
  | Node.classDecl name _ _ _ body _ _ _ =>
      popScope (visitNodes t (pushScope st name) body)
  | Node.funcDecl name _ body _ _ _ _ =>
      let scopeName :=
        if currentScope st = "global" then name else currentScope st ++ "." ++ name
      popScope (visitNodes t (pushScope st scopeName) body)
  | Node.exprStmt e line column => visitExpressionStatement t st e line column
  | Node.finalDecl _ _ _ _ => st
  | Node.interfaceDecl _ _ _ _ => st
  | Node.passStmt => st

/-- The statement loops of `_visit_module` and the body visitors. -/
def visitNodes (t : SymbolTable) (st : TCState) : List Node → TCState
  | [] => st
  | n :: rest => visitNodes t (visitNode t st n) rest

end

/-- `TypeChecker.check`: fresh errors and scope stack (a fresh checker also
starts with empty `_generic_bindings`), then visit the module body. -/
def typeCheck (t : SymbolTable) (body : List Node) : TCState :=
  visitNodes t { errors := [], scopeStack := ["global"], genericBindings := [] } body

end Spice.TypeChecker

namespace Spice.ParserM

/-- Token kinds of `spice/lexer`, restricted to those the compiler-flag
disambiguation consults; `tOTHER` stands for every remaining kind. -/
inductive TokType where
  | tABSTRACT
  | tFINAL
  | tCLASS
  | tDEF
  | tSTATIC
  | tIDENTIFIER
  | tSTRING
  | tNEWLINE
  | tCOMMENT
  | tLBRACKET
  | tRBRACKET
  | tCOMMA
  | tEOF
  | tOTHER
deriving DecidableEq, Repr

/-- A lexer token: kind plus its `value` (the lexeme payload). The token
stream is modelled without the trailing `eof` sentinel: peeking past the end
yields `tEOF`, exactly as the sentinel would. -/
structure Token where
  type : TokType
  value : String
deriving DecidableEq, Repr

/-- `Parser.peek().type`, with the implicit `eof` sentinel at the end. -/
def peekType (ts : List Token) : TokType :=
  match ts with
  | [] => TokType.tEOF
  | t :: _ => t.type

/-- `Parser.check(type)`: false at end of input, else kind comparison. -/
def checkTok (ts : List Token) (ty : TokType) : Bool :=
  match ts with
  | [] => false
  | t :: _ => t.type ≠ TokType.tEOF && t.type == ty

/-- `Parser._peek_next_non_newline_type`: first kind that is neither
`newline` nor `comment`, else `eof`. -/
def peekNextNonNewlineType : List Token → TokType
  | [] => TokType.tEOF
  | t :: rest =>
      if t.type = TokType.tNEWLINE ∨ t.type = TokType.tCOMMENT then
        peekNextNonNewlineType rest
      else t.type

/-- The newline/comment skipping loops that follow each flag block in
`_consume_compiler_flags` (they drop every leading newline or comment). -/
def skipNewlinesAndComments (ts : List Token) : List Token :=
  ts.dropWhile (fun t => t.type == TokType.tNEWLINE || t.type == TokType.tCOMMENT)

/-- The `while True` loop of `Parser._parse_compiler_flag_values`: a
comma-separated list of identifier/string tokens; anything else raises
`Expected compiler flag identifier or string`. -/
def parseFlagValuesLoop : List Token → Except String (List String × List Token)
  | [] => Except.error "Expected compiler flag identifier or string"
  | t :: rest =>
      if t.type = TokType.tIDENTIFIER ∨ t.type = TokType.tSTRING then
        match rest with
        | [] => Except.ok ([t.value], [])
        | r :: rest2 =>
            if r.type = TokType.tCOMMA then
              match parseFlagValuesLoop rest2 with
              | Except.ok (vs, ts2) => Except.ok (t.value :: vs, ts2)
              | Except.error e => Except.error e
            else Except.ok ([t.value], rest)
      else Except.error "Expected compiler flag identifier or string"

/-- `Parser._parse_compiler_flag_values`: empty block yields no values. -/
def parseCompilerFlagValues (ts : List Token) : Except String (List String × List Token) :=
  if checkTok ts TokType.tRBRACKET then Except.ok ([], ts)
  else parseFlagValuesLoop ts

theorem parseFlagValuesLoop_length_le_aux :
    ∀ (n : Nat) (ts : List Token), ts.length ≤ n →
      ∀ vs ts2, parseFlagValuesLoop ts = Except.ok (vs, ts2) → ts2.length ≤ ts.length := by
  intro n
  induction n with
  | zero =>
      intro ts hlen vs ts2 h
      have : ts = [] := List.length_eq_zero.mp (Nat.le_zero.mp hlen)
      subst this
      simp [parseFlagValuesLoop] at h
  | succ n ih =>
      intro ts hlen vs ts2 h
      match ts with
      | [] => simp [parseFlagValuesLoop] at h
      | t :: rest =>
          unfold parseFlagValuesLoop at h
          split at h
          · match rest with
            | [] =>
                simp at h
                cases h.2
                simp
            | r :: rest2 =>
                simp only at h
                split at h
                · cases hrec : parseFlagValuesLoop rest2 with
                  | ok p =>
                      rw [hrec] at h
                      cases p with
                      | mk vs3 ts3 =>
                          simp at h
                          have hlen2 : rest2.length ≤ n := by
                            simp at hlen
                            omega
                          have := ih rest2 hlen2 vs3 ts3 hrec
                          rw [← h.2]
                          simp only [List.length_cons]
                          omega
                  | error e =>
                      rw [hrec] at h
                      cases h
                · simp at h
                  cases h.2
                  simp
          · cases h

theorem parseFlagValuesLoop_length_le (ts : List Token) (vs : List String)
    (ts2 : List Token) (h : parseFlagValuesLoop ts = Except.ok (vs, ts2)) :
    ts2.length ≤ ts.length :=
  parseFlagValuesLoop_length_le_aux ts.length ts (Nat.le_refl _) vs ts2 h

theorem parseCompilerFlagValues_length_le (ts : List Token) (vs : List String)
    (ts2 : List Token) (h : parseCompilerFlagValues ts = Except.ok (vs, ts2)) :
    ts2.length ≤ ts.length := by
  unfold parseCompilerFlagValues at h
  by_cases hc : checkTok ts TokType.tRBRACKET
  · rw [if_pos hc] at h; cases h; exact Nat.le_refl _
  · rw [if_neg hc] at h; exact parseFlagValuesLoop_length_le ts vs ts2 h

theorem skipNewlinesAndComments_length_le (ts : List Token) :
    (skipNewlinesAndComments ts).length ≤ ts.length := by
  induction ts with
  | nil => simp [skipNewlinesAndComments]
  | cons t rest ih =>
      simp only [skipNewlinesAndComments, List.dropWhile_cons]
      split
      · exact Nat.le_trans ih (by simp)
      · simp

/-- The `while self.check(LBRACKET)` loop of `_consume_compiler_flags`,
accumulating flag values across blocks. -/
def consumeFlagsLoop (ts : List Token) (acc : List String) :
    Except String (List String × List Token) :=
  match hts : ts with
  | [] => Except.ok (acc, ts)
  | t :: rest =>
      if ht : t.type = TokType.tLBRACKET then
        match hpv : parseCompilerFlagValues rest with
        | Except.error e => Except.error e
        | Except.ok (vals, ts2) =>
            match hts2 : ts2 with
            | [] => Except.error "Expected ']' after compiler flags"
            | r :: rest2 =>
                if r.type = TokType.tRBRACKET then
                  consumeFlagsLoop (skipNewlinesAndComments rest2) (acc ++ vals)
                else Except.error "Expected ']' after compiler flags"
      else Except.ok (acc, ts)
termination_by ts.length
decreasing_by
  have h1 : (r :: rest2).length ≤ rest.length :=
    parseCompilerFlagValues_length_le rest vals (r :: rest2) hpv
  have h2 : (skipNewlinesAndComments rest2).length ≤ rest2.length :=
    skipNewlinesAndComments_length_le rest2
  simp only [List.length_cons] at h1 ⊢
  omega

/-- `Parser._consume_compiler_flags(allowed_next)`: consume flag blocks; if
flags were read but the next meaningful token is not in `allowedNext`, roll
back to the start position and return no flags. -/
def consumeCompilerFlags (allowedNext : List TokType) (ts : List Token) :
    Except String (List String × List Token) :=
  match consumeFlagsLoop ts [] with
  | Except.error e => Except.error e
  | Except.ok (flags, ts2) =>
      if flags = [] then Except.ok ([], ts2)
      else if allowedNext.contains (peekNextNonNewlineType ts2) then Except.ok (flags, ts2)
      else Except.ok ([], ts)

/-- The `allowed_next` list passed by `Parser.parse_statement` (line 675):
note `static` is absent. -/
def statementAllowedNext : List TokType :=
  [TokType.tABSTRACT, TokType.tFINAL, TokType.tCLASS, TokType.tDEF]

/-- The `allowed_next` list passed by the class-body member loop (line 413). -/
def memberAllowedNext : List TokType :=
  [TokType.tSTATIC, TokType.tABSTRACT, TokType.tFINAL, TokType.tDEF]

end Spice.ParserM

namespace Spice.OverloadResolver

/-- `MethodOverloadResolver._param_type_name`: annotation or `any`. -/
def paramTypeName (p : Parameter) : String :=
  match p.typeAnnot with
  | some t => t
  | none => "any"

/-- `MethodOverloadResolver._normalize_type_name`: keep alphanumeric
characters, falling back to `any` when nothing remains. -/
def normalizeTypeName (typeName : String) : String :=
  let cleaned := String.mk (typeName.toList.filter Char.isAlphanum)
  if cleaned = "" then "any" else cleaned

/-- `MethodOverloadResolver._signature_key`: `name(t1, t2, ...)` or `name()`. -/
def signatureKey (baseName : String) (params : List Parameter) : String :=
  let typeNames := params.map paramTypeName
  match typeNames with
  | [] => baseName ++ "()"
  | _ => baseName ++ "(" ++ joinComma typeNames ++ ")"

/-- The `while candidate in used and prefix_len < len` loop of
`_abbreviate_params`: extend the abbreviation until it is free or the whole
name is used. -/
def extendAbbrev (normalized : String) (used : List String) (pl : Nat) : String :=
  let candidate := (normalized.take pl).toLower
  if used.contains candidate ∧ pl < normalized.length then
    extendAbbrev normalized used (pl + 1)
  else candidate
termination_by normalized.length - pl

/-- The `while unique_candidate in used` loop of `_abbreviate_params`: append
`2`, `3`, ... to the parameter-name suffix. The fuel exceeds the number of
used names, so by pigeonhole the loop always ends before it runs out. -/
def freshSuffixed (base : String) (used : List String) : Nat → Nat → String
  | 0, counter => base ++ toString counter
  | fuel + 1, counter =>
      let candidate := if counter = 1 then base else base ++ toString counter
      if used.contains candidate then freshSuffixed base used fuel (counter + 1)
      else candidate

/-- Per-parameter step of `_abbreviate_params`. -/
def abbreviateOne (index : Nat) (p : Parameter) (used : List String) : String :=
  let normalized := normalizeTypeName (paramTypeName p)
  let pl0 := min 3 normalized.length
  let pl1 := if pl0 = 0 then normalized.length else pl0
  let pl := if pl1 = 0 then 3 else pl1
  let candidate := extendAbbrev normalized used pl
  if used.contains candidate then
    let paramSuffix := if p.name = "" then "p" ++ toString index else p.name.toLower
    freshSuffixed (candidate ++ "_" ++ paramSuffix) used (used.length + 2) 1
  else candidate

/-- The indexed loop of `MethodOverloadResolver._abbreviate_params`. -/
def abbreviateParamsLoop (index : Nat) (used : List String) :
    List Parameter → List String
  | [] => []
  | p :: rest =>
      let candidate := abbreviateOne index p used
      candidate :: abbreviateParamsLoop (index + 1) (used ++ [candidate]) rest

/-- `MethodOverloadResolver._abbreviate_params`. -/
def abbreviateParams (params : List Parameter) : List String :=
  abbreviateParamsLoop 0 [] params

/-- Python `'_'.join(xs)`. -/
def joinUnderscore (xs : List String) : String :=
  match xs with
  | [] => ""
  | [x] => x
  | x :: rest => x ++ "_" ++ joinUnderscore rest

/-- `MethodOverloadResolver._build_overload_name`: suffix from abbreviations,
then a `_2`, `_3`, ... counter until the candidate is unused. -/
def buildOverloadName (baseName : String) (params : List Parameter)
    (usedNames : List String) : String :=
  let abbrevs := abbreviateParams params
  let suffix := if abbrevs = [] then "noparams" else joinUnderscore abbrevs
  freshSuffixed (baseName ++ "_" ++ suffix) usedNames (usedNames.length + 2) 1

/-- Resolver output state: `file.method_overload_table` plus `self.errors`. -/
structure ResState where
  table : List (String × List (String × String))
  errors : List String
deriving DecidableEq, Repr

/-- One indexed class member, as collected by the `for member in body` loop
of `_process_class`: position in the body, name and params. -/
structure Member where
  index : Nat
  name : String
  params : List Parameter
deriving DecidableEq, Repr

/-- The `for member in class_node.body` collection loop of `_process_class`. -/
def collectMembers (body : List Node) : List Member :=
  (body.enum).filterMap fun p =>
    match p.snd with
    | Node.funcDecl name params _ _ _ _ _ => some { index := p.fst, name := name, params := params }
    | _ => none

/-- Method-name grouping order: first occurrence, as a Python `defaultdict`
iterated in insertion order. -/
def groupNamesInOrder (members : List Member) : List String :=
  members.foldl (fun acc m => if acc.contains m.name then acc else acc ++ [m.name]) []

/-- The `for method in methods` loop of `_process_class` for one overload
group: threads `seen_signatures`, `used_names`, the class's signature map,
the pending renames (body index to new name) and the error list. -/
def processGroup (className : String) (methodName : String) :
    List Member → List String → List String →
    List (String × String) → List (Nat × String) → List String →
    (List (String × String) × List (Nat × String) × List String)
  | [], _, _, sigMap, renames, errors => (sigMap, renames, errors)
  | m :: rest, seenSigs, usedNames, sigMap, renames, errors =>
      let sigKey := signatureKey methodName m.params
      if seenSigs.contains sigKey then
        let err := "Duplicate overload for " ++ className ++ "." ++ methodName ++
          " with signature " ++ sigKey
        processGroup className methodName rest seenSigs usedNames sigMap renames
          (errors ++ [err])
      else
        let newName := buildOverloadName methodName m.params usedNames
        processGroup className methodName rest (seenSigs ++ [sigKey])
          (usedNames ++ [newName]) (aset sigMap sigKey newName)
          (renames ++ [(m.index, newName)]) errors

/-- The `for method_name, methods in methods_by_name.items()` loop of
`_process_class`, over group names in first-occurrence order. -/
def processGroups (className : String) (members : List Member) :
    List String → ResState → List (Nat × String) → (List (Nat × String) × ResState)
  | [], st, renames => (renames, st)
  | g :: rest, st, renames =>
      let group := members.filter (fun m => m.name = g)
      if group.length ≤ 1 then processGroups className members rest st renames
      else
        let inner0 :=
          match alookup st.table className with
          | some d => d
          | none => []
        let tbl0 := asetdefault st.table className inner0
        let pg := processGroup className g group [] [] inner0 [] st.errors
        let st1 : ResState := { table := aset tbl0 className pg.fst, errors := pg.snd.snd }
        processGroups className members rest st1 (renames ++ pg.snd.fst)

/-- `MethodOverloadResolver._process_class` without the child recursion:
group the class's direct methods by name and rename each group of two or
more; returns the renames to apply to the class body. -/
def processClassGroups (className : String) (body : List Node) (st : ResState) :
    List (Nat × String) × ResState :=
  let members := collectMembers body
  processGroups className members (groupNamesInOrder members) st []

/-- Lookup in the pending renames by body index. -/
def renameFor (renames : List (Nat × String)) (i : Nat) : Option String :=
  match renames.find? (fun p => p.fst = i) with
  | some p => some p.snd
  | none => none

mutual

/-- `MethodOverloadResolver._process_node`: rename overloads inside class
declarations, then recurse into every child list (`getattr(node, "body")`). -/
def processNode (st : ResState) : Node → (Node × ResState)
  | Node.classDecl name tps bases ifaces body fin line col =>
      let pg := processClassGroups name body st
      let pc := processChildren pg.snd pg.fst 0 body
      (Node.classDecl name tps bases ifaces pc.fst fin line col, pc.snd)
  | Node.funcDecl name params body rt fin line col =>
      let pb := processNodeList st body
      (Node.funcDecl name params pb.fst rt fin line col, pb.snd)
  | Node.interfaceDecl name methods line col => (Node.interfaceDecl name methods line col, st)
  | Node.exprStmt e line col => (Node.exprStmt e line col, st)
  | Node.finalDecl tgt ta line col => (Node.finalDecl tgt ta line col, st)
  | Node.passStmt => (Node.passStmt, st)
termination_by n => (sizeOf n, 0)

/-- One child of a class body: a method picks up its rename (its body is
still recursed into); any other child is processed as a plain node. -/
def processChild (st : ResState) (renames : List (Nat × String)) (i : Nat) :
    Node → (Node × ResState)
  | Node.funcDecl name params fbody rt fin line col =>
      let name2 :=
        match renameFor renames i with
        | some nn => nn
        | none => name
      let pb := processNodeList st fbody
      (Node.funcDecl name2 params pb.fst rt fin line col, pb.snd)
  | other => processNode st other
termination_by n => (sizeOf n, 1)

/-- The `for child in node.body: _process_node(child)` recursion over a
class body, applying the renames computed for that class first. -/
def processChildren (st : ResState) (renames : List (Nat × String)) (i : Nat) :
    List Node → (List Node × ResState)
  | [] => ([], st)
  | child :: rest =>
      let pc := processChild st renames i child
      let pr := processChildren pc.snd renames (i + 1) rest
      (pc.fst :: pr.fst, pr.snd)
termination_by l => (sizeOf l, 2)

/-- `for node in file.ast.body: _process_node(node, file)`. -/
def processNodeList (st : ResState) : List Node → (List Node × ResState)
  | [] => ([], st)
  | n :: rest =>
      let pn := processNode st n
      let pr := processNodeList pn.snd rest
      (pn.fst :: pr.fst, pr.snd)
termination_by l => (sizeOf l, 2)

end

/-- `MethodOverloadResolver.check`: fresh table and error list, process the
module body; the pass succeeds iff no errors were collected. -/
def resolverCheck (body : List Node) : List Node × ResState :=
  processNodeList { table := [], errors := [] } body

end Spice.OverloadResolver

namespace Spice.SymbolTableBuilder

open Spice.SymbolTableM

/-- Builder state: the table under construction plus the scope stack
(head = `scope_stack[-1]`). -/
structure BuildState where
  table : SymbolTable
  scopeStack : List String
deriving DecidableEq, Repr

/-- `SymbolTableBuilder._current_scope`. -/
def bCurrentScope (bs : BuildState) : String := bs.scopeStack.headD "global"

/-- `SymbolTableBuilder._push_scope`: ensure the scope exists with the
current scope as parent, then push. -/
def bPushScope (bs : BuildState) (scopeName : String) : BuildState :=
  { table := ensureScope bs.table scopeName (some (bCurrentScope bs))
    scopeStack := scopeName :: bs.scopeStack }

/-- `SymbolTableBuilder._pop_scope`. -/
def bPopScope (bs : BuildState) : BuildState :=
  if bs.scopeStack.length > 1 then { bs with scopeStack := bs.scopeStack.tail } else bs

/-- `SymbolTableBuilder._add_variable`: record the symbol in the current
scope (which always exists in a run, having been pushed). -/
def addVariable (bs : BuildState) (name : String) (typeAnnot : Option String) :
    BuildState :=
  match alookup bs.table.scopes (bCurrentScope bs) with
  | none => bs
  | some sc =>
      let sc2 := { sc with vars := aset sc.vars name { name := name, typeAnnot := typeAnnot } }
      { bs with table := { bs.table with scopes := aset bs.table.scopes (bCurrentScope bs) sc2 } }

/-- `SymbolTableBuilder._add_function`: append a `FunctionSymbol` to the
owner scope's function list (creating the scope if missing). -/
def addFunction (bs : BuildState) (ownerScope : Option String) (fname : String)
    (params : List Parameter) (returnType : Option String) :
    BuildState × FunctionSymbol :=
  let scopeName :=
    match ownerScope with
    | some o => o
    | none => bCurrentScope bs
  let bs1 :=
    match alookup bs.table.scopes scopeName with
    | some _ => bs
    | none =>
        let parent :=
          match ownerScope with
          | none => some (bCurrentScope bs)
          | some o => some o
        { bs with table := ensureScope bs.table scopeName parent }
  let sym : FunctionSymbol :=
    { name := fname, params := params, returnType := returnType, scope := scopeName }
  match alookup bs1.table.scopes scopeName with
  | none => (bs1, sym)
  | some sc =>
      let funcs := (alookup sc.functions fname).getD []
      let sc2 := { sc with functions := aset sc.functions fname (funcs ++ [sym]) }
      ({ bs1 with table := { bs1.table with scopes := aset bs1.table.scopes scopeName sc2 } }, sym)

/-- Append a method symbol to the class symbol currently registered under
`className` (`class_symbol.methods.setdefault(name, []).append(...)`). -/
def addClassMethod (bs : BuildState) (className : String) (mname : String)
    (sym : FunctionSymbol) : BuildState :=
  match alookup bs.table.classes className with
  | none => bs
  | some cs =>
      let ms := (alookup cs.methods mname).getD []
      let cs2 := { cs with methods := aset cs.methods mname (ms ++ [sym]) }
      { bs with table := { bs.table with classes := aset bs.table.classes className cs2 } }

/-- `SymbolTableBuilder._literal_to_type` (same mapping as the checker's). -/
def bLiteralToType (literalType : String) : Option String :=
  Spice.TypeChecker.literalToType literalType

/-- `SymbolTableBuilder._infer_call_type`: constructor calls only. -/
def inferCallType (bs : BuildState) (callee : Expr) : Option String :=
  match callee with
  | Expr.identifier n _ _ =>
      if (alookup bs.table.classes n).isSome then some n else none
  | _ => none

/-- `SymbolTableBuilder._maybe_infer_assignment`. -/
def maybeInferAssignment (bs : BuildState) (target : Expr) (value : Option Expr) :
    BuildState :=
  match target with
  | Expr.identifier tname _ _ =>
      let inferred :=
        match value with
        | some (Expr.call callee _ _ _) => inferCallType bs callee
        | some (Expr.literal lt _ _) => bLiteralToType lt
        | _ => none
      match inferred with
      | some ty => addVariable bs tname (some ty)
      | none => bs
  | _ => bs

/-- `SymbolTableBuilder._visit_expression_statement`. -/
def bVisitExpressionStatement (bs : BuildState) (e : Expr) : BuildState :=
  match e with
  | Expr.assignment target value typeAnnot _ _ =>
      match typeAnnot with
      | some ta =>
          match target with
          | Expr.identifier tname _ _ => addVariable bs tname (some ta)
          | _ => bs
      | none => maybeInferAssignment bs target value
  | _ => bs

mutual

/-- `SymbolTableBuilder._visit_node`. The fuel argument only makes the
mutual recursion structural; it strictly exceeds the depth of any call chain
(every call passes the predecessor and dispatches on a strictly smaller
subterm), so the `0` branch is never taken in a run of `builderCheck`. -/
def bVisitNode : Nat → BuildState → Node → BuildState
  | 0, bs, _ => bs
  | fuel + 1, bs, node =>
      match node with
      | Node.classDecl name tps _ _ body _ _ _ => bVisitClassBody fuel bs name tps body
      | Node.funcDecl name params body rt _ _ _ =>
          bVisitFunction fuel bs none name params body rt
      | Node.interfaceDecl name _ _ _ =>
          let t := bs.table
          let t2 :=
            if t.interfaces.contains name then t
            else { t with interfaces := t.interfaces ++ [name] }
          { bs with table := t2 }
      | Node.exprStmt e _ _ => bVisitExpressionStatement bs e
      | Node.finalDecl target typeAnnot _ _ =>
          match target with
          | Expr.identifier tname _ _ => addVariable bs tname typeAnnot
          | _ => bs
      | Node.passStmt => bs

/-- `SymbolTableBuilder._visit_class`: register the class symbol, push its
scope, add member methods to both the scope and the class symbol, visit
members, pop. -/
def bVisitClassBody : Nat → BuildState → String → List String → List Node → BuildState
  | 0, bs, _, _, _ => bs
  | fuel + 1, bs, name, tps, body =>
      let sym : ClassSymbol :=
        { name := name, methods := [], scope := bCurrentScope bs, typeParameters := tps }
      let bs1 := { bs with table := { bs.table with classes := aset bs.table.classes name sym } }
      let bs2 := bPushScope bs1 name
      bPopScope (bVisitClassMembers fuel bs2 name body)

/-- The member loop of `_visit_class`. -/
def bVisitClassMembers : Nat → BuildState → String → List Node → BuildState
  | 0, bs, _, _ => bs
  | fuel + 1, bs, className, members =>
      match members with
      | [] => bs
      | member :: rest =>
          let bs2 :=
            match member with
            | Node.funcDecl mname mparams mbody mrt _ _ _ =>
                let af := addFunction bs (some className) mname mparams mrt
                let bsB := addClassMethod af.fst className mname af.snd
                bVisitFunction fuel bsB (some className) mname mparams mbody mrt
            | other => bVisitNode fuel bs other
          bVisitClassMembers fuel bs2 className rest

/-- `SymbolTableBuilder._visit_function`. -/
def bVisitFunction : Nat → BuildState → Option String → String → List Parameter →
    List Node → Option String → BuildState
  | 0, bs, _, _, _, _, _ => bs
  | fuel + 1, bs, ownerScope, name, params, body, returnType =>
      let bs1 :=
        match ownerScope with
        | none => (addFunction bs none name params returnType).fst
        | some _ => bs
      let scopeName :=
        match ownerScope with
        | some o => o ++ "." ++ name
        | none => name
      let bs2 := bPushScope bs1 scopeName
      let bs3 := params.foldl (fun acc p => addVariable acc p.name p.typeAnnot) bs2
      bPopScope (bVisitNodes fuel bs3 body)

/-- The statement loops of `_visit_module` and function bodies. -/
def bVisitNodes : Nat → BuildState → List Node → BuildState
  | 0, bs, _ => bs
  | fuel + 1, bs, nodes =>
      match nodes with
      | [] => bs
      | n :: rest => bVisitNodes fuel (bVisitNode fuel bs n) rest

end

/-- `SymbolTableBuilder.check`: build from a fresh table and the `global`
scope stack; the pass always returns `True` and defines no diagnostics. -/
def builderCheck (body : List Node) : SymbolTable × Bool :=
  let bs := bVisitNodes (nodeListSize body + 1)
    { table := SymbolTable.empty, scopeStack := ["global"] } body
  (bs.table, true)

end Spice.SymbolTableBuilder

namespace Spice.InterfaceChecker

/-- `InterfaceChecker._get_param_signature`: tuple of annotations with the
`"Any"` fallback. -/
def getParamSignature (params : List Parameter) : List String :=
  params.map fun p =>
    match p.typeAnnot with
    | some t => t
    | none => "Any"

/-- `InterfaceChecker._get_method_param_signature`: exclude `self`. -/
def getMethodParamSignature (params : List Parameter) : List String :=
  getParamSignature (params.filter (fun p => p.name ≠ "self"))

/-- One collected class method: parameter signature plus the data needed for
the return-type diagnostic. -/
structure ImplMethod where
  paramSig : List String
  returnType : Option String
  line : Nat
  column : Nat
deriving DecidableEq, Repr

/-- The method-collection loop of `_check_implementation`, grouping class
methods by name in first-occurrence order. -/
def collectClassMethods (body : List Node) : List (String × List ImplMethod) :=
  body.foldl
    (fun acc m =>
      match m with
      | Node.funcDecl mname mparams _ mrt _ mline mcol =>
          let entry : ImplMethod :=
            { paramSig := getMethodParamSignature mparams, returnType := mrt
              line := mline, column := mcol }
          aset acc mname ((alookup acc mname).getD [] ++ [entry])
      | _ => acc)
    []

/-- The `f"{p.name}: {p.type_annotation}"` parameter rendering of the
diagnostics (Python prints a missing annotation as `None`). -/
def renderParams (params : List Parameter) : String :=
  joinComma (params.map fun p => p.name ++ ": " ++ optTypeStr p.typeAnnot)

/-- `InterfaceChecker._check_method_implementation`: at most one diagnostic
per required signature. -/
def checkMethodImplementation (className : String) (classLine classCol : Nat)
    (interfaceName : String) (methodSig : MethodSignature)
    (classMethods : List (String × List ImplMethod)) : Option CheckError :=
  let expectedParamSig := getParamSignature methodSig.params
  let expectedReturn := methodSig.returnType
  match alookup classMethods methodSig.name with
  | none =>
      some { message := "Class '" ++ className ++ "' does not implement method '" ++
               methodSig.name ++ "' required by interface '" ++ interfaceName ++ "'"
             line := classLine, column := classCol }
  | some impls =>
      match impls.find? (fun impl => impl.paramSig = expectedParamSig) with
      | none =>
          some { message := "Class '" ++ className ++ "' does not implement method '" ++
                   methodSig.name ++ "(" ++ renderParams methodSig.params ++
                   ")' required by interface '" ++ interfaceName ++ "'"
                 line := classLine, column := classCol }
      | some impl =>
          if expectedReturn = impl.returnType then none
          else
            some { message := "Method '" ++ className ++ "." ++ methodSig.name ++ "(" ++
                     renderParams methodSig.params ++ ")' has return type '" ++
                     optTypeStr impl.returnType ++ "' but interface '" ++ interfaceName ++
                     "' expects '" ++ optTypeStr expectedReturn ++ "'"
                   line := impl.line, column := impl.column }

/-- `InterfaceChecker._check_implementation` for one declared interface. -/
def checkImplementation (interfaces : List (String × List MethodSignature))
    (className : String) (classBody : List Node) (classLine classCol : Nat)
    (interfaceName : String) : List CheckError :=
  match alookup interfaces interfaceName with
  | none =>
      [{ message := "Class '" ++ className ++ "' implements unknown interface '" ++
           interfaceName ++ "'"
         line := classLine, column := classCol }]
  | some imethods =>
      let classMethods := collectClassMethods classBody
      imethods.filterMap
        (checkMethodImplementation className classLine classCol interfaceName ·
          classMethods)

/-- Top-level data collected by `_collect_declarations` for one class. -/
structure ClassInfo where
  interfaces : List String
  body : List Node
  line : Nat
  column : Nat

/-- `InterfaceChecker._collect_declarations` (top-level statements only;
later duplicates overwrite in place, as Python dicts do). -/
def collectDeclarations (body : List Node) :
    List (String × List MethodSignature) × List (String × ClassInfo) :=
  body.foldl
    (fun acc stmt =>
      match stmt with
      | Node.interfaceDecl iname imethods _ _ => (aset acc.fst iname imethods, acc.snd)
      | Node.classDecl cname _ _ cinterfaces cbody _ cline ccol =>
          (acc.fst,
            aset acc.snd cname
              { interfaces := cinterfaces, body := cbody, line := cline, column := ccol })
      | _ => acc)
    ([], [])

/-- `InterfaceChecker.check`: validate every class against each interface it
declares, in declaration order; the pass succeeds iff no errors. -/
def interfaceCheck (body : List Node) : List CheckError :=
  let (interfaces, classes) := collectDeclarations body
  classes.foldl
    (fun errs kc =>
      kc.snd.interfaces.foldl
        (fun es iname =>
          es ++ checkImplementation interfaces kc.fst kc.snd.body kc.snd.line kc.snd.column iname)
        errs)
    []

end Spice.InterfaceChecker

namespace Spice.FinalChecker

/-- Class metadata gathered by `FinalChecker._collect_class_metadata`:
`class_nodes` reduced to the only field later consulted (`bases`) and
`final_methods_by_class` reduced to the final-method names (dict keys). -/
structure FinalMeta where
  classBases : List (String × List String)
  finalMethodsByClass : List (String × List String)
deriving DecidableEq, Repr

/-- `FinalChecker._collect_class_metadata` (recursing into class bodies and
any node with a statement-list body). The fuel strictly exceeds the depth of
any recursion chain, so the `0` branch is never taken in a run. -/
def collectMeta : Nat → FinalMeta → List Node → FinalMeta
  | 0, meta, _ => meta
  | fuel + 1, meta, nodes =>
      match nodes with
      | [] => meta
      | n :: rest =>
          let meta2 :=
            match n with
            | Node.classDecl name _ bases _ body _ _ _ =>
                let finals := body.filterMap fun m =>
                  match m with
                  | Node.funcDecl mn _ _ _ true _ _ => some mn
                  | _ => none
                let m1 : FinalMeta := { meta with classBases := aset meta.classBases name bases }
                let m2 : FinalMeta :=
                  if finals ≠ [] then
                    { m1 with finalMethodsByClass := aset m1.finalMethodsByClass name finals }
                  else m1
                collectMeta fuel m2 body
            | Node.funcDecl _ _ fbody _ _ _ _ => collectMeta fuel meta fbody
            | _ => meta
          collectMeta fuel meta2 rest

/-- Number of declared classes not yet in the visited set: the decreasing
measure of `_collect_final_methods_from_base`. -/
def unseenCount (classBases : List (String × List String)) (visited : List String) : Nat :=
  (classBases.filter (fun p => !(visited.contains p.fst))).length

theorem length_filter_mono {α : Type} (l : List α) (p q : α → Bool)
    (h : ∀ a, p a = true → q a = true) :
    (l.filter p).length ≤ (l.filter q).length := by
  induction l with
  | nil => simp
  | cons x rest ih =>
      by_cases hp : p x = true
      · have hq := h x hp
        simp [List.filter_cons, hp, hq]
        omega
      · simp only [List.filter_cons]
        rw [if_neg hp]
        by_cases hq : q x = true
        · rw [if_pos hq]
          simp
          omega
        · rw [if_neg hq]
          exact ih

theorem unseenCount_cons_lt (classBases : List (String × List String))
    (visited : List String) (base : String)
    (h1 : (alookup classBases base).isSome) (h2 : visited.contains base = false) :
    unseenCount classBases (base :: visited) < unseenCount classBases visited := by
  induction classBases with
  | nil => simp [alookup] at h1
  | cons kv rest ih =>
      unfold unseenCount at ih ⊢
      rw [List.filter_cons, List.filter_cons]
      by_cases hk : kv.fst = base
      · have hnewc : ((base :: visited).contains kv.fst) = true := by
          rw [hk]
          simp [List.contains_cons]
        have holdc : (visited.contains kv.fst) = false := by
          rw [hk]
          exact h2
        rw [hnewc, holdc]
        have hle : ((rest.filter (fun p => !((base :: visited).contains p.fst))).length ≤
            (rest.filter (fun p => !(visited.contains p.fst))).length) := by
          apply length_filter_mono
          intro a ha
          simp only [Bool.not_eq_true', List.contains_cons, Bool.or_eq_false_iff] at ha
          simp only [Bool.not_eq_true']
          exact ha.2
        simp only [Bool.not_true, Bool.not_false]
        simp only [Bool.false_eq_true, if_false, if_true]
        simp only [List.length_cons]
        omega
      · have h1r : (alookup rest base).isSome := by
          unfold alookup at h1
          rw [if_neg hk] at h1
          exact h1
        have hrec := ih h1r
        have hagree : ((base :: visited).contains kv.fst) = (visited.contains kv.fst) := by
          simp only [List.contains_cons]
          have : (kv.fst == base) = false := by
            simp only [beq_eq_false_iff_ne, ne_eq]
            exact hk
          rw [this]
          simp
        rw [hagree]
        cases hv : (visited.contains kv.fst) with
        | true =>
            simp only [Bool.not_true, Bool.false_eq_true, if_false]
            exact hrec
        | false =>
            simp only [Bool.not_false, if_true]
            simp only [List.length_cons]
            omega

/-- `FinalChecker._collect_final_methods_from_base(base_name, visited)`:
final-method names of `base` and all its ancestors, each mapped to the class
that declared it (`setdefault`: nearest declaration wins), pruned by the
visited set. The `for ancestor in base_node.bases` loop runs over `attach`ed
ancestors; every sibling recursion gets the same copied visited set. -/
def collectFinalFromBase (cb fb : List (String × List String)) (base : String)
    (visited : List String) : List (String × String) :=
  if hbv : visited.contains base then []
  else
    let methods := ((alookup fb base).getD []).map (fun m => (m, base))
    match hcb : alookup cb base with
    | none => methods
    | some bs =>
        bs.attach.foldl
          (fun acc a =>
            (collectFinalFromBase cb fb a.val (base :: visited)).foldl
              (fun acc3 p => asetdefault acc3 p.fst p.snd) acc)
          methods
termination_by unseenCount cb visited
decreasing_by
  apply unseenCount_cons_lt
  · rw [hcb]
    rfl
  · simpa using hbv

/-- `FinalChecker._collect_inherited_final_methods`: merge over the class's
declared bases, each starting from a fresh empty visited set. -/
def collectInheritedFinalMethods (cb fb : List (String × List String))
    (bases : List String) : List (String × String) :=
  bases.foldl
    (fun inherited b =>
      (collectFinalFromBase cb fb b []).foldl
        (fun acc p => asetdefault acc p.fst p.snd) inherited)
    []

/-- The override diagnostic of `_check_final_method_overrides`. -/
def overrideErrMsg (className mname origin : String) : String :=
  "Class '" ++ className ++ "' cannot override final method '" ++ mname ++
    "' defined in '" ++ origin ++ "'"

/-- `FinalChecker._check_final_method_overrides`: one diagnostic per member
method whose name appears among the inherited final methods. -/
def overrideErrorsFor (cb fb : List (String × List String)) (className : String)
    (bases : List String) (body : List Node) : List CheckError :=
  let inherited := collectInheritedFinalMethods cb fb bases
  if inherited = [] then []
  else
    body.filterMap fun m =>
      match m with
      | Node.funcDecl mn _ _ _ _ mline mcol =>
          match alookup inherited mn with
          | some origin =>
              some { message := overrideErrMsg className mn origin
                     line := mline, column := mcol }
          | none => none
      | _ => none

/-- Final-checker traversal state: `final_variables` (scope name to final
set), `current_scope` and the error list. -/
structure FCState where
  finalVariables : List (String × List String)
  currentScope : String
  errors : List CheckError
deriving DecidableEq, Repr

/-- `FinalChecker.register_final`. -/
def registerFinal (st : FCState) (name : String) : FCState :=
  let cur := (alookup st.finalVariables st.currentScope).getD []
  { st with finalVariables := aset st.finalVariables st.currentScope (cur ++ [name]) }

/-- `FinalChecker.enter_scope`. -/
def enterScope (st : FCState) (scopeName : String) : FCState :=
  let fv :=
    if (alookup st.finalVariables scopeName).isSome then st.finalVariables
    else aset st.finalVariables scopeName []
  { st with currentScope := scopeName, finalVariables := fv }

/-- `FinalChecker.check_assignment`: flag the assignment iff the name is in
the current scope's final set or the global final set. -/
def checkAssignment (st : FCState) (name : String) (line column : Nat) :
    FCState × Bool :=
  let scopeVars := (alookup st.finalVariables st.currentScope).getD []
  let globalVars := (alookup st.finalVariables "global").getD []
  if scopeVars.contains name || globalVars.contains name then
    ({ st with errors := st.errors ++
        [{ message := "Cannot reassign final variable '" ++ name ++ "'"
           line := line, column := column }] }, false)
  else (st, true)

mutual

/-- `FinalChecker._visit_expression` with `_handle_assignment` inlined at the
assignment case, followed by the generic dataclass-field recursion (which
visits the assignment's target and value again). -/
def visitExpression (st : FCState) : Expr → FCState
  | Expr.identifier _ _ _ => st
  | Expr.literal _ _ _ => st
  | Expr.attribute obj _ _ _ => visitExpression st obj
  | Expr.call callee args _ _ => visitExpressions (visitExpression st callee) args
  | Expr.assignment target value _ line col =>
      let stA :=
        match target with
        | Expr.identifier n _ _ => (checkAssignment st n line col).fst
        | _ => st
      let stB :=
        match value with
        | some v => visitExpression stA v
        | none => stA
      let stC := visitExpression stB target
      match value with
      | some v => visitExpression stC v
      | none => stC

/-- Field recursion over expression lists (`_visit_expression_field`). -/
def visitExpressions (st : FCState) : List Expr → FCState
  | [] => st
  | e :: rest => visitExpressions (visitExpression st e) rest

end

mutual

/-- `FinalChecker._visit_node`: note that function and class bodies are
visited twice — once inside the entered scope by the matching branch, and a
second time by the unconditional `hasattr(node, 'body')` recursion after the
scope has been restored. -/
def fVisitNode (cb fb : List (String × List String)) (st : FCState) : Node → FCState
  | Node.finalDecl target _ _ _ =>
      match target with
      | Expr.identifier n _ _ => registerFinal st n
      | _ => st
  | Node.exprStmt e _ _ => visitExpression st e
  | Node.funcDecl name _ body _ _ _ _ =>
      let old := st.currentScope
      let st1 := enterScope st name
      let st2 := fVisitNodes cb fb st1 body
      let st3 := { st2 with currentScope := old }
      fVisitNodes cb fb st3 body
  | Node.classDecl name _ bases _ body _ _ _ =>
      let old := st.currentScope
      let st1 := enterScope st name
      let st2 := { st1 with errors := st1.errors ++ overrideErrorsFor cb fb name bases body }
      let st3 := fVisitNodes cb fb st2 body
      let st4 := { st3 with currentScope := old }
      fVisitNodes cb fb st4 body
  | Node.interfaceDecl _ _ _ _ => st
  | Node.passStmt => st

/-- The statement loops of `FinalChecker.check` and node bodies. -/
def fVisitNodes (cb fb : List (String × List String)) (st : FCState) :
    List Node → FCState
  | [] => st
  | n :: rest => fVisitNodes cb fb (fVisitNode cb fb st n) rest

end

/-- `FinalChecker.check`: reset state, collect class metadata, then visit
every top-level node. -/
def finalCheck (body : List Node) : FCState :=
  let meta := collectMeta (nodeListSize body + 1) { classBases := [], finalMethodsByClass := [] } body
  fVisitNodes meta.classBases meta.finalMethodsByClass
    { finalVariables := [("global", [])], currentScope := "global", errors := [] } body

end Spice.FinalChecker

namespace Spice.Pipeline

open Spice.SymbolTableM

/-- `str(CheckError)` as used when the driver formats a pass's diagnostics:
`f"{message} ({line}:{column})"`. -/
def checkErrorStr (e : CheckError) : String :=
  e.message ++ " (" ++ toString e.line ++ ":" ++ toString e.column ++ ")"

/-- Outcome of `SpicePipeline.verify_and_write` on a single unit: the passes
that ran, in order (`transformer` last on success), and the aborting pass
with the diagnostics it grouped into the raised exception, if any. -/
structure UnitRun where
  executed : List String
  failure : Option (String × List String)
deriving DecidableEq, Repr

/-- `SpicePipeline.verify_and_write` restricted to one unit (the recursion
into imports is modelled separately): build the symbol table (its `check`
always returns `True` and is not consulted), run the overload resolver, the
type checker, the interface checker and the final checker in that order,
aborting at the first pass that fails; final-checker failures are ignored
when `no_final_check` is set. -/
def verifyUnit (body : List Node) (noFinalCheck : Bool) : UnitRun :=
  let table := (Spice.SymbolTableBuilder.builderCheck body).fst
  let rr := Spice.OverloadResolver.resolverCheck body
  let body2 := rr.fst
  let rst := rr.snd
  if rst.errors ≠ [] then
    { executed := ["symbol_table_builder", "method_overload_resolver"]
      failure := some ("method_overload_resolver", rst.errors) }
  else
    let tc := Spice.TypeChecker.typeCheck table body2
    if tc.errors ≠ [] then
      { executed := ["symbol_table_builder", "method_overload_resolver", "type_checker"]
        failure := some ("type_checker", tc.errors.map checkErrorStr) }
    else
      let ic := Spice.InterfaceChecker.interfaceCheck body2
      if ic ≠ [] then
        { executed := ["symbol_table_builder", "method_overload_resolver", "type_checker",
            "interface_checker"]
          failure := some ("interface_checker", ic.map checkErrorStr) }
      else
        let fc := Spice.FinalChecker.finalCheck body2
        if fc.errors ≠ [] ∧ ¬noFinalCheck then
          { executed := ["symbol_table_builder", "method_overload_resolver", "type_checker",
              "interface_checker", "final_checker"]
            failure := some ("final_checker", fc.errors.map checkErrorStr) }
        else
          { executed := ["symbol_table_builder", "method_overload_resolver", "type_checker",
              "interface_checker", "final_checker", "transformer"]
            failure := none }

/-- The import tree of a compilation: a unit's path and the units it
imports (`file.spc_imports`). -/
inductive ImportTree where
  | unit (path : String) (imports : List ImportTree)

mutual

/-- Order in which `SpicePipeline.walk` tokenizes/parses units: the root is
parsed first, then each imported subtree, depth-first. -/
def walkParseOrder : ImportTree → List String
  | ImportTree.unit p imports => p :: walkParseOrderList imports

def walkParseOrderList : List ImportTree → List String
  | [] => []
  | t :: rest => walkParseOrder t ++ walkParseOrderList rest

end

mutual

/-- Order in which `SpicePipeline.verify_and_write` verifies and emits
units: the unit itself first (all passes plus `transform_and_write`), then
each import subtree, depth-first. -/
def verifyWriteOrder : ImportTree → List String
  | ImportTree.unit p imports => p :: verifyWriteOrderList imports

def verifyWriteOrderList : List ImportTree → List String
  | [] => []
  | t :: rest => verifyWriteOrder t ++ verifyWriteOrderList rest

end

end Spice.Pipeline

namespace Spice.ParserM

/-- Token constructor shorthand for concrete examples. -/
def tokOf (ty : TokType) (v : String) : Token := { type := ty, value := v }

/-- A comma-separated token list, as produced by the lexer for the inside of
a bracket block `[v1, v2, ...]`. -/
def commaSeparated : List Token → List Token
  | [] => []
  | [t] => [t]
  | t :: rest => t :: tokOf TokType.tCOMMA "," :: commaSeparated rest

theorem peekNext_skipNLC (ts : List Token) :
    peekNextNonNewlineType (skipNewlinesAndComments ts) = peekNextNonNewlineType ts := by
  induction ts with
  | nil => rfl
  | cons t rest ih =>
      by_cases h : (t.type = TokType.tNEWLINE ∨ t.type = TokType.tCOMMENT)
      · have hb : (t.type == TokType.tNEWLINE || t.type == TokType.tCOMMENT) = true := by
          rcases h with h | h <;> simp [h]
        simp only [skipNewlinesAndComments, List.dropWhile_cons, hb, if_pos]
        rw [← skipNewlinesAndComments]
        rw [ih]
        simp only [peekNextNonNewlineType, if_pos h]
      · have hb : (t.type == TokType.tNEWLINE || t.type == TokType.tCOMMENT) = false := by
          simp only [Bool.or_eq_false_iff, beq_eq_false_iff_ne, ne_eq]
          constructor
          · intro hc; exact h (Or.inl hc)
          · intro hc; exact h (Or.inr hc)
        simp only [skipNewlinesAndComments, List.dropWhile_cons, hb]
        simp

theorem parseFlagValuesLoop_commaSeparated (vals : List Token) (rest : List Token)
    (hvals : vals ≠ [])
    (htypes : ∀ t ∈ vals, t.type = TokType.tIDENTIFIER ∨ t.type = TokType.tSTRING) :
    parseFlagValuesLoop (commaSeparated vals ++ tokOf TokType.tRBRACKET "]" :: rest) =
      Except.ok (vals.map Token.value, tokOf TokType.tRBRACKET "]" :: rest) := by
  induction vals with
  | nil => exact absurd rfl hvals
  | cons v vrest ih =>
      have hv := htypes v (List.mem_cons_self v vrest)
      cases vrest with
      | nil =>
          simp only [commaSeparated, List.cons_append, List.nil_append]
          simp only [parseFlagValuesLoop, if_pos hv]
          simp [tokOf]
      | cons w wrest =>
          have hih := ih (by simp) (fun t ht => htypes t (List.mem_cons_of_mem v ht))
          simp only [commaSeparated, List.cons_append]
          simp only [parseFlagValuesLoop, if_pos hv]
          simp only [tokOf, if_pos rfl]
          rw [show (commaSeparated (w :: wrest) ++ tokOf TokType.tRBRACKET "]" :: rest) =
            (commaSeparated (w :: wrest) ++ tokOf TokType.tRBRACKET "]" :: rest) from rfl] at hih
          simp only [tokOf] at hih
          rw [hih]
          simp

theorem tokOf_type (ty : TokType) (v : String) : (tokOf ty v).type = ty := rfl

theorem consumeFlagsLoop_step (t : Token) (rest : List Token) (acc : List String)
    (ht : t.type = TokType.tLBRACKET) (vals : List String) (r : Token)
    (rest2 : List Token)
    (hpv : parseCompilerFlagValues rest = Except.ok (vals, r :: rest2))
    (hr : r.type = TokType.tRBRACKET) :
    consumeFlagsLoop (t :: rest) acc =
      consumeFlagsLoop (skipNewlinesAndComments rest2) (acc ++ vals) := by
  rw [consumeFlagsLoop.eq_def]
  dsimp only []
  rw [dif_pos ht]
  split
  · rename_i e heq
    rw [hpv] at heq
    cases heq
  · rename_i vals2 ts2 heq
    rw [hpv] at heq
    cases heq
    dsimp only []
    rw [if_pos hr]

theorem consumeFlagsLoop_stop (ts : List Token) (acc : List String)
    (h : peekType ts ≠ TokType.tLBRACKET) :
    consumeFlagsLoop ts acc = Except.ok (acc, ts) := by
  rw [consumeFlagsLoop.eq_def]
  cases ts with
  | nil => rfl
  | cons t rest =>
      have ht : ¬ t.type = TokType.tLBRACKET := by simpa [peekType] using h
      dsimp only []
      rw [dif_neg ht]

/-- The amended claim for a statement-start bracket block: a nonempty block
of identifier/string values is consumed as compiler flags iff the next
meaningful token after the matching `]` is one of `abstract`, `final`,
`class`, `def` (not `static`); otherwise the parser rewinds to the original
position and returns no flags. -/
theorem spice_c3_amended (vals : List Token) (rest : List Token)
    (hvals : vals ≠ [])
    (htypes : ∀ t ∈ vals, t.type = TokType.tIDENTIFIER ∨ t.type = TokType.tSTRING)
    (hnb : peekType (skipNewlinesAndComments rest) ≠ TokType.tLBRACKET) :
    consumeCompilerFlags statementAllowedNext
        (tokOf TokType.tLBRACKET "[" :: commaSeparated vals ++
          tokOf TokType.tRBRACKET "]" :: rest) =
      (if statementAllowedNext.contains (peekNextNonNewlineType rest) then
        Except.ok (vals.map Token.value, skipNewlinesAndComments rest)
      else
        Except.ok ([], tokOf TokType.tLBRACKET "[" :: commaSeparated vals ++
          tokOf TokType.tRBRACKET "]" :: rest)) := by
  have hcheck : checkTok (commaSeparated vals ++ tokOf TokType.tRBRACKET "]" :: rest)
      TokType.tRBRACKET = false := by
    cases vals with
    | nil => exact absurd rfl hvals
    | cons v vrest =>
        have hv := htypes v (List.mem_cons_self v vrest)
        cases vrest with
        | nil =>
            simp only [commaSeparated, List.cons_append, checkTok]
            rcases hv with hv | hv <;> simp [hv]
        | cons w wrest =>
            simp only [commaSeparated, List.cons_append, checkTok]
            rcases hv with hv | hv <;> simp [hv, tokOf]
  have hpv : parseCompilerFlagValues
      (commaSeparated vals ++ tokOf TokType.tRBRACKET "]" :: rest) =
      Except.ok (vals.map Token.value, tokOf TokType.tRBRACKET "]" :: rest) := by
    unfold parseCompilerFlagValues
    rw [hcheck]
    simp only [Bool.false_eq_true, if_false]
    exact parseFlagValuesLoop_commaSeparated vals rest hvals htypes
  have hloop : consumeFlagsLoop
      (tokOf TokType.tLBRACKET "[" :: commaSeparated vals ++
        tokOf TokType.tRBRACKET "]" :: rest) [] =
      Except.ok (vals.map Token.value, skipNewlinesAndComments rest) := by
    simp only [List.cons_append]
    rw [consumeFlagsLoop_step (tokOf TokType.tLBRACKET "[")
      (commaSeparated vals ++ tokOf TokType.tRBRACKET "]" :: rest) []
      (tokOf_type _ _) (vals.map Token.value) (tokOf TokType.tRBRACKET "]") rest hpv
      (tokOf_type _ _)]
    rw [consumeFlagsLoop_stop (skipNewlinesAndComments rest) _ hnb]
    simp
  unfold consumeCompilerFlags
  rw [hloop]
  dsimp only []
  have hmapne : ¬ (vals.map Token.value = []) := by
    cases vals with
    | nil => exact absurd rfl hvals
    | cons v vrest => simp
  rw [if_neg hmapne]
  rw [peekNext_skipNLC]

/-- The statement-start token stream `[fast] static def f`: the next
meaningful token after the flag block's `]` is `static`. -/
def c3Tokens : List Token :=
  [tokOf TokType.tLBRACKET "[", tokOf TokType.tIDENTIFIER "fast",
   tokOf TokType.tRBRACKET "]", tokOf TokType.tSTATIC "static",
   tokOf TokType.tDEF "def", tokOf TokType.tIDENTIFIER "f"]

/-- Counterexample to C3 as stated: at statement start, for `[fast] static
def f` the next meaningful token after the matching `]` is `static` — one of
the five kinds the claim lists — yet `parse_statement`'s
`_consume_compiler_flags` call rolls back to the original position and
returns no flags (the statement-level `allowed_next` list omits `static`),
so the statement is re-parsed as an expression, not as a flag block. -/
theorem spice_c3_counterexample :
    peekNextNonNewlineType (c3Tokens.drop 3) = TokType.tSTATIC ∧
    ¬ statementAllowedNext.contains TokType.tSTATIC ∧
    consumeCompilerFlags statementAllowedNext c3Tokens = Except.ok ([], c3Tokens) := by
  refine ⟨rfl, by decide, ?_⟩
  simp [consumeCompilerFlags, consumeFlagsLoop, parseCompilerFlagValues, parseFlagValuesLoop,
    checkTok, skipNewlinesAndComments, peekNextNonNewlineType, statementAllowedNext,
    c3Tokens, tokOf]

/-- Witness for `spice_c3_amended`: the block `[fast]` followed by `class C`
is accepted as a compiler-flag block with flags `["fast"]`. -/
theorem spice_c3_amended_witness :
    consumeCompilerFlags statementAllowedNext
        (tokOf TokType.tLBRACKET "[" :: commaSeparated [tokOf TokType.tIDENTIFIER "fast"] ++
          tokOf TokType.tRBRACKET "]" ::
            [tokOf TokType.tCLASS "class", tokOf TokType.tIDENTIFIER "C"]) =
      Except.ok (["fast"],
        [tokOf TokType.tCLASS "class", tokOf TokType.tIDENTIFIER "C"]) := by
  rw [spice_c3_amended [tokOf TokType.tIDENTIFIER "fast"]
    [tokOf TokType.tCLASS "class", tokOf TokType.tIDENTIFIER "C"]
    (by decide) (by intro t ht; simp [tokOf] at ht; simp [ht, tokOf])
    (by simp [skipNewlinesAndComments, peekType, tokOf])]
  simp [peekNextNonNewlineType, statementAllowedNext, skipNewlinesAndComments, tokOf]

end Spice.ParserM

namespace Spice.OverloadResolver

mutual

/-- Names of every class declaration the resolver's traversal can reach. -/
def classNamesInNode : Node → List String
  | Node.classDecl name _ _ _ body _ _ _ => name :: classNamesInList body
  | Node.funcDecl _ _ body _ _ _ _ => classNamesInList body
  | _ => []

/-- List version of `classNamesInNode`. -/
def classNamesInList : List Node → List String
  | [] => []
  | n :: rest => classNamesInNode n ++ classNamesInList rest

end

theorem akeys_aset_sub {α : Type} (m : List (String × α)) (k : String) (v : α) :
    ∀ x, x ∈ akeys (aset m k v) → x = k ∨ x ∈ akeys m := by
  induction m with
  | nil => intro x hx; simp [aset, akeys] at hx; exact Or.inl hx
  | cons kv rest ih =>
      intro x hx
      unfold aset at hx
      by_cases hk : kv.fst = k
      · rw [if_pos hk] at hx
        simp [akeys] at hx ⊢
        rcases hx with hx | hx
        · exact Or.inr (Or.inl hx)
        · exact Or.inr (Or.inr hx)
      · rw [if_neg hk] at hx
        simp [akeys] at hx ⊢
        rcases hx with hx | hx
        · exact Or.inr (Or.inl hx)
        · rcases ih x (by simpa [akeys] using hx) with h | h
          · exact Or.inl h
          · exact Or.inr (Or.inr (by simpa [akeys] using h))

theorem akeys_asetdefault_sub {α : Type} (m : List (String × α)) (k : String) (v : α) :
    ∀ x, x ∈ akeys (asetdefault m k v) → x = k ∨ x ∈ akeys m := by
  intro x hx
  unfold asetdefault at hx
  by_cases hs : (alookup m k).isSome
  · rw [if_pos hs] at hx; exact Or.inr hx
  · rw [if_neg hs] at hx
    simp [akeys] at hx ⊢
    rcases hx with hx | hx
    · exact Or.inr hx
    · exact Or.inl hx

theorem processGroups_keys (cn : String) (members : List Member) :
    ∀ (gs : List String) (st : ResState) (renames : List (Nat × String)) (x : String),
      x ∈ akeys (processGroups cn members gs st renames).snd.table →
      x = cn ∨ x ∈ akeys st.table := by
  intro gs
  induction gs with
  | nil => intro st renames x hx; exact Or.inr hx
  | cons g rest ih =>
      intro st renames x hx
      unfold processGroups at hx
      by_cases hlen : (members.filter (fun m => m.name = g)).length ≤ 1
      · rw [if_pos hlen] at hx
        exact ih st renames x hx
      · rw [if_neg hlen] at hx
        rcases ih _ _ x hx with h | h
        · exact Or.inl h
        · dsimp only at h
          rcases akeys_aset_sub _ _ _ x h with h2 | h2
          · exact Or.inl h2
          · rcases akeys_asetdefault_sub _ _ _ x h2 with h3 | h3
            · exact Or.inl h3
            · exact Or.inr h3

theorem processChild_snd (st : ResState) (renames : List (Nat × String)) (i : Nat)
    (n : Node) : (processChild st renames i n).snd = (processNode st n).snd := by
  cases n <;> simp [processChild, processNode]

/-- Keys statement for a single node. -/
def ProcessNodeKeys (n : Node) : Prop :=
  ∀ st x, x ∈ akeys (processNode st n).snd.table →
    x ∈ akeys st.table ∨ x ∈ classNamesInNode n

/-- Keys statement for a node list (both traversal loops). -/
def ProcessListKeys (l : List Node) : Prop :=
  (∀ st x, x ∈ akeys (processNodeList st l).snd.table →
    x ∈ akeys st.table ∨ x ∈ classNamesInList l) ∧
  (∀ st renames i x, x ∈ akeys (processChildren st renames i l).snd.table →
    x ∈ akeys st.table ∨ x ∈ classNamesInList l)

theorem processTraversal_keys (n0 : Node) : ProcessNodeKeys n0 := by
  refine Node.rec (motive_1 := ProcessNodeKeys) (motive_2 := ProcessListKeys)
    ?_ ?_ ?_ ?_ ?_ ?_ ?_ ?_ n0
  · intro name tps bases ifaces body fin line col ihbody
    intro st x hx
    unfold processNode at hx
    rcases hg : processClassGroups name body st with ⟨renames, st1⟩
    rw [hg] at hx
    dsimp only at hx
    rcases ihbody.2 st1 renames 0 x (by
      rcases hc : processChildren st1 renames 0 body with ⟨nb, st2⟩
      rw [hc] at hx
      exact hx) with h | h
    · unfold processClassGroups at hg
      have : x = name ∨ x ∈ akeys st.table := by
        apply processGroups_keys name (collectMembers body)
          (groupNamesInOrder (collectMembers body)) st []
        rw [hg]
        exact h
      rcases this with h2 | h2
      · right; simp [classNamesInNode, h2]
      · left; exact h2
    · right; simp [classNamesInNode]; exact Or.inr h
  · intro name params body rt fin line col ihbody
    intro st x hx
    unfold processNode at hx
    rcases hb : processNodeList st body with ⟨nb, st2⟩
    rw [hb] at hx
    dsimp only at hx
    rcases ihbody.1 st x (by rw [hb]; exact hx) with h | h
    · exact Or.inl h
    · right; simpa [classNamesInNode] using h
  · intro name methods line col st x hx
    exact Or.inl (by simpa [processNode] using hx)
  · intro e line col st x hx
    exact Or.inl (by simpa [processNode] using hx)
  · intro tgt ta line col st x hx
    exact Or.inl (by simpa [processNode] using hx)
  · intro st x hx
    exact Or.inl (by simpa [processNode] using hx)
  · constructor
    · intro st x hx; exact Or.inl (by simpa [processNodeList] using hx)
    · intro st renames i x hx; exact Or.inl (by simpa [processChildren] using hx)
  · intro head tail ih1 ih2
    constructor
    · intro st x hx
      unfold processNodeList at hx
      rcases hh : processNode st head with ⟨n2, st1⟩
      rw [hh] at hx
      dsimp only at hx
      rcases hr : processNodeList st1 tail with ⟨rest2, st2⟩
      rw [hr] at hx
      dsimp only at hx
      rcases ih2.1 st1 x (by rw [hr]; exact hx) with h | h
      · rcases ih1 st x (by rw [hh]; exact h) with h2 | h2
        · exact Or.inl h2
        · right; simp [classNamesInList]; exact Or.inl h2
      · right; simp [classNamesInList]; exact Or.inr h
    · intro st renames i x hx
      unfold processChildren at hx
      dsimp only at hx
      rw [processChild_snd] at hx
      rcases ih2.2 (processNode st head).snd renames (i + 1) x hx with h | h
      · rcases ih1 st x h with h2 | h2
        · exact Or.inl h2
        · right; simp [classNamesInList]; exact Or.inl h2
      · right; simp [classNamesInList]; exact Or.inr h

end Spice.OverloadResolver

namespace Spice.OverloadResolver

theorem processGroup_errors_prefix (cn mn : String) :
    ∀ (group : List Member) (seen used : List String) (sigMap : List (String × String))
      (renames : List (Nat × String)) (errors0 : List String),
      ∃ tail, (processGroup cn mn group seen used sigMap renames errors0).snd.snd =
        errors0 ++ tail := by
  intro group
  induction group with
  | nil => intro seen used sigMap renames errors0; exact ⟨[], by simp [processGroup]⟩
  | cons m rest ih =>
      intro seen used sigMap renames errors0
      unfold processGroup
      by_cases hseen : seen.contains (signatureKey mn m.params) = true
      · rw [if_pos hseen]
        rcases ih seen used sigMap renames
          (errors0 ++ ["Duplicate overload for " ++ cn ++ "." ++ mn ++
            " with signature " ++ signatureKey mn m.params]) with ⟨tail, htail⟩
        exact ⟨_, by rw [htail, List.append_assoc]⟩
      · rw [if_neg hseen]
        exact ih _ _ _ _ _

theorem processGroup_clean_iff (cn mn : String) :
    ∀ (group : List Member) (seen used : List String) (sigMap : List (String × String))
      (renames : List (Nat × String)) (errors0 : List String),
      ((processGroup cn mn group seen used sigMap renames errors0).snd.snd = errors0 ↔
        (∀ m ∈ group, signatureKey mn m.params ∉ seen) ∧
          (group.map (fun m => signatureKey mn m.params)).Nodup) := by
  intro group
  induction group with
  | nil =>
      intro seen used sigMap renames errors0
      simp [processGroup]
  | cons m rest ih =>
      intro seen used sigMap renames errors0
      unfold processGroup
      by_cases hseen : seen.contains (signatureKey mn m.params) = true
      · rw [if_pos hseen]
        have hmem : signatureKey mn m.params ∈ seen := by
          simpa using hseen
        constructor
        · intro heq
          exfalso
          rcases processGroup_errors_prefix cn mn rest seen used sigMap renames
            (errors0 ++ ["Duplicate overload for " ++ cn ++ "." ++ mn ++
              " with signature " ++ signatureKey mn m.params]) with ⟨tail, htail⟩
          rw [htail] at heq
          have := congrArg List.length heq
          simp at this
        · intro ⟨h1, _⟩
          exact absurd hmem (h1 m (List.mem_cons_self m rest))
      · rw [if_neg hseen]
        have hnmem : signatureKey mn m.params ∉ seen := by
          intro hc
          exact hseen (by simpa using hc)
        rw [ih]
        constructor
        · intro ⟨h1, h2⟩
          refine ⟨?_, ?_⟩
          · intro m2 hm2
            rcases List.mem_cons.mp hm2 with hm2 | hm2
            · rw [hm2]; exact hnmem
            · intro hc
              exact (by
                have := h1 m2 hm2
                simp at this
                exact this.1 hc : False)
          · rw [List.map_cons, List.nodup_cons]
            refine ⟨?_, h2⟩
            intro hc
            rcases List.mem_map.mp hc with ⟨m2, hm2, hkey⟩
            have := h1 m2 hm2
            simp at this
            exact this.2 hkey
        · intro ⟨h1, h2⟩
          rw [List.map_cons, List.nodup_cons] at h2
          refine ⟨?_, h2.2⟩
          intro m2 hm2
          simp only [List.mem_append, List.mem_singleton]
          push_neg
          refine ⟨h1 m2 (List.mem_cons_of_mem m hm2), ?_⟩
          intro hc
          exact h2.1 (List.mem_map.mpr ⟨m2, hm2, hc⟩)

theorem processNodeList_keys (l : List Node) :
    ∀ st x, x ∈ akeys (processNodeList st l).snd.table →
      x ∈ akeys st.table ∨ x ∈ classNamesInList l := by
  induction l with
  | nil => intro st x hx; exact Or.inl (by simpa [processNodeList] using hx)
  | cons n rest ih =>
      intro st x hx
      unfold processNodeList at hx
      dsimp only at hx
      rcases ih _ x hx with h | h
      · rcases processTraversal_keys n st x h with h2 | h2
        · exact Or.inl h2
        · right; simp [classNamesInList]; exact Or.inl h2
      · right; simp [classNamesInList]; exact Or.inr h

/-- The two same-named module-level free functions of C2's counterexample:
`def f(a: int)` and `def f(a: str)` at top level. -/
def c2Module : List Node :=
  [Node.funcDecl "f" [{ name := "a", typeAnnot := some "int" }] [] none false 1 0,
   Node.funcDecl "f" [{ name := "a", typeAnnot := some "str" }] [] none false 2 0]

/-- Counterexample to C2 as stated: on a module with two same-named free
functions the resolver records nothing — the overload table stays empty (no
`__module__` entry, no signature keys), no diagnostic is raised, and both
declarations are left untouched: `_process_node` only inspects
`ClassDeclaration` nodes. -/
theorem spice_c2_counterexample :
    resolverCheck c2Module = (c2Module, { table := [], errors := [] }) := by
  simp [resolverCheck, processNodeList, processNode, c2Module]

/-- The amended claim: the resolver walks only class declarations (recursing
into nested bodies). (1) A module-level free function is returned with its
name, parameters and tags unchanged — only its body is recursed into; (2)
every key of the produced overload table is the name of a class declaration
occurring in the module (so `"__module__"` is never recorded unless a class
is literally named that); (3) within one overload group, the pass reports no
duplicate-overload diagnostic iff the signature keys `name(p1_type, ...)` —
annotation or `any` — of the group's methods are pairwise distinct. -/
theorem spice_c2_amended :
    (∀ st name params fbody rt fin line col,
      processNode st (Node.funcDecl name params fbody rt fin line col) =
        (Node.funcDecl name params (processNodeList st fbody).fst rt fin line col,
          (processNodeList st fbody).snd)) ∧
    (∀ body x, x ∈ akeys (resolverCheck body).snd.table → x ∈ classNamesInList body) ∧
    (∀ cn mn group used sigMap renames errors0,
      ((processGroup cn mn group [] used sigMap renames errors0).snd.snd = errors0 ↔
        (group.map (fun m => signatureKey mn m.params)).Nodup)) := by
  refine ⟨?_, ?_, ?_⟩
  · intro st name params fbody rt fin line col
    simp [processNode]
  · intro body x hx
    rcases processNodeList_keys body { table := [], errors := [] } x
      (by simpa [resolverCheck] using hx) with h | h
    · simp [akeys] at h
    · exact h
  · intro cn mn group used sigMap renames errors0
    rw [processGroup_clean_iff]
    simp

end Spice.OverloadResolver

namespace Spice.SymbolTableBuilder

open Spice.SymbolTableM

/-- A module declaring two top-level classes that share the name `A` (the
first with method `m1`, the second with method `m2`). -/
def c9Module : List Node :=
  [Node.classDecl "A" [] [] [] [Node.funcDecl "m1" [] [] none false 1 4] false 1 0,
   Node.classDecl "A" [] [] [] [Node.funcDecl "m2" [] [] none false 2 4] false 2 0]

/-- The class symbol of the second (later) declaration of `A`. -/
def c9LaterSymbol : ClassSymbol :=
  { name := "A"
    methods := [("m2", [{ name := "m2", params := [], returnType := none, scope := "A" }])]
    scope := "global"
    typeParameters := [] }

/-- Counterexample to C9 as stated: on a module with two classes named `A`
the builder silently records the later declaration — the class table maps
`A` to the second class's symbol (methods `m2` only) — and the pass reports
success; the builder defines no error list and emits no collision
diagnostic of any kind. -/
theorem spice_c9_counterexample :
    (builderCheck c9Module).snd = true ∧
    alookup (builderCheck c9Module).fst.classes "A" = some c9LaterSymbol := by
  exact ⟨rfl, by decide⟩

/-- The amended claim: on a duplicate class/interface name the symbol-table
builder records the later declaration (it shadows the earlier one) and no
diagnostic is emitted — the builder always reports success and has no
diagnostic output at all. -/
theorem spice_c9_amended :
    (∀ body, (builderCheck body).snd = true) ∧
    alookup (builderCheck c9Module).fst.classes "A" = some c9LaterSymbol := by
  exact ⟨fun body => rfl, by decide⟩

end Spice.SymbolTableBuilder

namespace Spice.Pipeline

/-- An importer with a single imported unit. -/
def c8Tree : ImportTree := ImportTree.unit "main" [ImportTree.unit "lib" []]

/-- Counterexample to C8 as stated: `verify_and_write` runs all of a unit's
passes and its emission first and only then recurses into `spc_imports`, so
for `main` importing `lib` the verify-and-emit order is `[main, lib]` — the
importing unit is verified and emitted before the unit it imports, not
after. -/
theorem spice_c8_counterexample :
    verifyWriteOrder c8Tree = ["main", "lib"] ∧
    ¬ ((verifyWriteOrder c8Tree).indexOf "lib" < (verifyWriteOrder c8Tree).indexOf "main") := by
  decide

/-- Keys statement pair used to run the nested `ImportTree` recursor. -/
def VerifyEqParseList (l : List ImportTree) : Prop :=
  verifyWriteOrderList l = walkParseOrderList l

/-- The amended claim: `walk` parses units in pre-order (each unit before
the subtrees it imports) and `verify_and_write` verifies and emits in the
same pre-order: every unit's passes and emission complete before any unit
it imports is verified and emitted — the reverse of the claimed dependency
order. -/
theorem spice_c8_amended :
    (∀ t, verifyWriteOrder t = walkParseOrder t) ∧
    (∀ p imports, verifyWriteOrder (ImportTree.unit p imports) =
      p :: verifyWriteOrderList imports) ∧
    (∀ p imports, walkParseOrder (ImportTree.unit p imports) =
      p :: walkParseOrderList imports) := by
  refine ⟨?_, fun p imports => rfl, fun p imports => rfl⟩
  intro t
  refine ImportTree.rec (motive_1 := fun t => verifyWriteOrder t = walkParseOrder t)
    (motive_2 := VerifyEqParseList) ?_ ?_ ?_ t
  · intro path imports ih
    rw [verifyWriteOrder, walkParseOrder]
    rw [VerifyEqParseList] at ih
    rw [ih]
  · rfl
  · intro head tail ih1 ih2
    rw [VerifyEqParseList] at ih2 ⊢
    rw [verifyWriteOrderList, walkParseOrderList, ih1, ih2]

end Spice.Pipeline

namespace Spice.FinalChecker

/-- The program `final a: int = 1; a = 2;` of C7. -/
def c7Body : List Node :=
  [Node.finalDecl (Expr.identifier "a" 1 6) (some "int") 1 0,
   Node.exprStmt
     (Expr.assignment (Expr.identifier "a" 2 0) (some (Expr.literal "number" 2 4)) none 2 0)
     2 0]

/-- C7: `check_assignment` flags an identifier assignment iff the name is in
the current scope's final set or in the global scope's final set (appending
exactly one `Cannot reassign final variable` diagnostic), and on the program
`final a: int = 1; a = 2;` the final check fails with exactly that
diagnostic for `a` at the assignment's position. -/
theorem spice_c7_final_assignment :
    (∀ (st : FCState) (name : String) (line column : Nat),
      (((checkAssignment st name line column).snd = false) ↔
        (name ∈ (alookup st.finalVariables st.currentScope).getD [] ∨
          name ∈ (alookup st.finalVariables "global").getD [])) ∧
      ((checkAssignment st name line column).fst.errors =
        if name ∈ (alookup st.finalVariables st.currentScope).getD [] ∨
            name ∈ (alookup st.finalVariables "global").getD [] then
          st.errors ++ [{ message := "Cannot reassign final variable '" ++ name ++ "'"
                          line := line, column := column }]
        else st.errors)) ∧
    (finalCheck c7Body).errors =
      [{ message := "Cannot reassign final variable 'a'", line := 2, column := 0 }] := by
  constructor
  · intro st name line column
    unfold checkAssignment
    by_cases h : (((alookup st.finalVariables st.currentScope).getD []).contains name
        || ((alookup st.finalVariables "global").getD []).contains name) = true
    · have hp : name ∈ (alookup st.finalVariables st.currentScope).getD [] ∨
          name ∈ (alookup st.finalVariables "global").getD [] := by
        simpa using h
      rw [if_pos h]
      exact ⟨by simpa using hp, by rw [if_pos hp]⟩
    · have hp : ¬ (name ∈ (alookup st.finalVariables st.currentScope).getD [] ∨
          name ∈ (alookup st.finalVariables "global").getD []) := by
        simpa using h
      rw [if_neg h]
      constructor
      · constructor
        · intro hc; cases hc
        · intro hc; exact absurd hc hp
      · rw [if_neg hp]
  · decide

end Spice.FinalChecker

namespace Spice.Pipeline

/-- The AST after the overload resolver's rewrite. -/
def resolvedBody (body : List Node) : List Node :=
  (Spice.OverloadResolver.resolverCheck body).fst

/-- The overload resolver's diagnostics for a unit. -/
def overloadErrors (body : List Node) : List String :=
  (Spice.OverloadResolver.resolverCheck body).snd.errors

/-- The type checker's diagnostics for a unit (symbol table built from the
original AST, checking the resolved AST, as `verify_and_write` does). -/
def typeErrors (body : List Node) : List CheckError :=
  (Spice.TypeChecker.typeCheck (Spice.SymbolTableBuilder.builderCheck body).fst
    (resolvedBody body)).errors

/-- The interface checker's diagnostics for a unit. -/
def interfaceErrors (body : List Node) : List CheckError :=
  Spice.InterfaceChecker.interfaceCheck (resolvedBody body)

/-- The final checker's diagnostics for a unit. -/
def finalErrors (body : List Node) : List CheckError :=
  (Spice.FinalChecker.finalCheck (resolvedBody body)).errors

/-- The amended claim: within a unit the passes run in the fixed order
symbol-table build (which cannot fail), overload resolution, type check,
interface check, final check, transform; the driver aborts at the first
pass that reports errors, grouping all of that pass's diagnostics — except
that when `no_final_check` is set, final-checker errors are ignored and the
transformer still runs. -/
theorem spice_c4_amended (body : List Node) (noFinalCheck : Bool) :
    (("transformer" ∈ (verifyUnit body noFinalCheck).executed) ↔
      (overloadErrors body = [] ∧ typeErrors body = [] ∧ interfaceErrors body = [] ∧
        (finalErrors body = [] ∨ noFinalCheck = true))) ∧
    ((verifyUnit body noFinalCheck).failure =
      if overloadErrors body ≠ [] then
        some ("method_overload_resolver", overloadErrors body)
      else if typeErrors body ≠ [] then
        some ("type_checker", (typeErrors body).map checkErrorStr)
      else if interfaceErrors body ≠ [] then
        some ("interface_checker", (interfaceErrors body).map checkErrorStr)
      else if finalErrors body ≠ [] ∧ ¬ noFinalCheck then
        some ("final_checker", (finalErrors body).map checkErrorStr)
      else none) ∧
    ((verifyUnit body noFinalCheck).executed.head? = some "symbol_table_builder") := by
  unfold verifyUnit
  by_cases h1 : overloadErrors body ≠ []
  · have h1b : (Spice.OverloadResolver.resolverCheck body).snd.errors ≠ [] := h1
    simp only [h1b, if_pos, if_true, ne_eq, not_false_eq_true]
    refine ⟨?_, ?_, rfl⟩
    · simp only [List.mem_cons, List.not_mem_nil]
      constructor
      · intro hc
        rcases hc with hc | hc | hc <;> simp_all
      · intro ⟨hov, _⟩
        exact absurd hov h1
    · rw [if_pos h1]
      rfl
  · have h1b : ((Spice.OverloadResolver.resolverCheck body).snd.errors ≠ []) = False := by
      simpa using h1
    simp only [h1b, if_false, ne_eq]
    by_cases h2 : typeErrors body ≠ []
    · have h2b : (Spice.TypeChecker.typeCheck
          (Spice.SymbolTableBuilder.builderCheck body).fst
          (Spice.OverloadResolver.resolverCheck body).fst).errors ≠ [] := h2
      simp only [h2b, if_pos, if_true, not_false_eq_true]
      refine ⟨?_, ?_, rfl⟩
      · simp only [List.mem_cons, List.not_mem_nil]
        constructor
        · intro hc
          rcases hc with hc | hc | hc | hc <;> simp_all
        · intro ⟨_, hty, _⟩
          exact absurd hty h2
      · rw [if_neg (by simpa using h1), if_pos h2]
        rfl
    · have h2b : ((Spice.TypeChecker.typeCheck
          (Spice.SymbolTableBuilder.builderCheck body).fst
          (Spice.OverloadResolver.resolverCheck body).fst).errors ≠ []) = False := by
        simpa [typeErrors, resolvedBody] using h2
      simp only [h2b, if_false]
      by_cases h3 : interfaceErrors body ≠ []
      · have h3b : Spice.InterfaceChecker.interfaceCheck
            (Spice.OverloadResolver.resolverCheck body).fst ≠ [] := h3
        simp only [h3b, if_pos, if_true, not_false_eq_true]
        refine ⟨?_, ?_, rfl⟩
        · simp only [List.mem_cons, List.not_mem_nil]
          constructor
          · intro hc
            rcases hc with hc | hc | hc | hc | hc <;> simp_all
          · intro ⟨_, _, hic, _⟩
            exact absurd hic h3
        · rw [if_neg (by simpa using h1), if_neg (by simpa using h2), if_pos h3]
          rfl
      · have h3b : (Spice.InterfaceChecker.interfaceCheck
            (Spice.OverloadResolver.resolverCheck body).fst ≠ []) = False := by
          simpa [interfaceErrors, resolvedBody] using h3
        simp only [h3b, if_false]
        by_cases h4 : finalErrors body ≠ [] ∧ ¬ noFinalCheck
        · have h4b : ((Spice.FinalChecker.finalCheck
              (Spice.OverloadResolver.resolverCheck body).fst).errors ≠ [] ∧
              ¬ noFinalCheck = true) := by
            exact ⟨h4.1, by simpa using h4.2⟩
          rw [if_pos h4b]
          refine ⟨?_, ?_, rfl⟩
          · simp only [List.mem_cons, List.not_mem_nil]
            constructor
            · intro hc
              rcases hc with hc | hc | hc | hc | hc | hc <;> simp_all
            · intro ⟨_, _, _, hfc⟩
              rcases hfc with hfc | hfc
              · exact absurd hfc h4.1
              · exact absurd hfc (by simpa using h4.2)
          · rw [if_neg (by simpa using h1), if_neg (by simpa using h2),
              if_neg (by simpa using h3), if_pos h4]
            rfl
        · have h4b : ¬ ((Spice.FinalChecker.finalCheck
              (Spice.OverloadResolver.resolverCheck body).fst).errors ≠ [] ∧
              ¬ noFinalCheck = true) := by
            intro hc
            exact h4 ⟨hc.1, by simpa using hc.2⟩
          rw [if_neg h4b]
          refine ⟨?_, ?_, rfl⟩
          · simp only [List.mem_cons, List.not_mem_nil]
            constructor
            · intro _
              refine ⟨by simpa using h1, by simpa using h2, by simpa using h3, ?_⟩
              by_cases hf : finalErrors body = []
              · exact Or.inl hf
              · right
                by_contra hnb
                exact h4 ⟨hf, hnb⟩
            · intro _
              simp
          · rw [if_neg (by simpa using h1), if_neg (by simpa using h2),
              if_neg (by simpa using h3), if_neg h4]

end Spice.Pipeline

namespace Spice.Pipeline

/-- The program `final a: int = 1; a = 2;` as a unit body (used for C4). -/
def c4Body : List Node :=
  [Node.finalDecl (Expr.identifier "a" 1 6) (some "int") 1 0,
   Node.exprStmt
     (Expr.assignment (Expr.identifier "a" 2 0) (some (Expr.literal "number" 2 4)) none 2 0)
     2 0]

/-- Counterexample to C4 as stated: on `final a: int = 1; a = 2;` with the
`no_final_check` option set, the final checker reports an error, yet the
transformer still runs and the unit does not abort — a later pass runs even
though an earlier pass reported errors. -/
theorem spice_c4_counterexample :
    (Spice.FinalChecker.finalCheck (resolvedBody c4Body)).errors ≠ [] ∧
    verifyUnit c4Body true =
      { executed := ["symbol_table_builder", "method_overload_resolver", "type_checker",
          "interface_checker", "final_checker", "transformer"]
        failure := none } := by
  have hres : Spice.OverloadResolver.resolverCheck c4Body =
      (c4Body, { table := [], errors := [] }) := by
    simp [Spice.OverloadResolver.resolverCheck, Spice.OverloadResolver.processNodeList,
      Spice.OverloadResolver.processNode, c4Body]
  have hres1 : resolvedBody c4Body = c4Body := by
    unfold resolvedBody
    rw [hres]
  constructor
  · rw [hres1]
    decide
  · simp only [verifyUnit, hres]
    decide

end Spice.Pipeline

namespace Spice.InterfaceChecker

/-- One interface `I` requiring `m() -> str`. -/
def c5Interfaces : List (String × List MethodSignature) :=
  [("I", [{ name := "m", params := [], returnType := some "str" }])]

/-- A class body declaring `m(self) -> int` first and `m(self) -> str`
second: both have the empty parameter tuple once `self` is excluded. -/
def c5ClassBody : List Node :=
  [Node.funcDecl "m" [{ name := "self", typeAnnot := none }] [] (some "int") false 3 4,
   Node.funcDecl "m" [{ name := "self", typeAnnot := none }] [] (some "str") false 4 4]

/-- Counterexample to C5 as stated: the class body does contain a method
with the required name, parameter tuple and return type (`m(self) -> str`),
so the claim's iff demands acceptance — yet the checker compares the return
type of the FIRST parameter-matching method only (`m(self) -> int`) and
emits a return-type-mismatch diagnostic. -/
theorem spice_c5_counterexample :
    (∃ member ∈ c5ClassBody, ∃ mp mb fin ml mc,
      member = Node.funcDecl "m" mp mb (some "str") fin ml mc ∧
        getMethodParamSignature mp = getParamSignature []) ∧
    checkImplementation c5Interfaces "Impl" c5ClassBody 1 0 "I" =
      [{ message := "Method 'Impl.m()' has return type 'int' but interface 'I' expects 'str'"
         line := 3, column := 4 }] := by
  constructor
  · refine ⟨Node.funcDecl "m" [{ name := "self", typeAnnot := none }] [] (some "str")
      false 4 4, ?_, [{ name := "self", typeAnnot := none }], [], false, 4, 4, rfl, ?_⟩
    · simp [c5ClassBody]
    · decide
  · decide

/-- The amended claim: for every class that declares `implements I1, ...`
and every method signature of a listed interface, the checker accepts iff
the class body contains a method with the same name and the FIRST method in
body order whose parameter tuple (excluding `self`, with `Any` for missing
annotations) equals the signature's also has a return-type string equal to
the signature's; an unlisted interface name yields the unknown-interface
diagnostic, and otherwise each required signature contributes at most one
of the remaining three diagnostics. -/
theorem spice_c5_amended :
    (∀ interfaces className classBody classLine classCol interfaceName,
      (alookup interfaces interfaceName = none →
        checkImplementation interfaces className classBody classLine classCol interfaceName =
          [{ message := "Class '" ++ className ++ "' implements unknown interface '" ++
               interfaceName ++ "'"
             line := classLine, column := classCol }]) ∧
      (∀ imethods, alookup interfaces interfaceName = some imethods →
        checkImplementation interfaces className classBody classLine classCol interfaceName =
          imethods.filterMap
            (checkMethodImplementation className classLine classCol interfaceName ·
              (collectClassMethods classBody)))) ∧
    (∀ className classLine classCol interfaceName msig classMethods,
      checkMethodImplementation className classLine classCol interfaceName msig
          classMethods = none ↔
        ∃ impls impl, alookup classMethods msig.name = some impls ∧
          impls.find? (fun i => i.paramSig = getParamSignature msig.params) = some impl ∧
          impl.returnType = msig.returnType) := by
  constructor
  · intro interfaces className classBody classLine classCol interfaceName
    constructor
    · intro hnone
      unfold checkImplementation
      rw [hnone]
    · intro imethods hsome
      unfold checkImplementation
      rw [hsome]
  · intro className classLine classCol interfaceName msig classMethods
    unfold checkMethodImplementation
    cases hlk : alookup classMethods msig.name with
    | none =>
        simp only []
        constructor
        · intro hc; cases hc
        · intro ⟨impls, impl, himpls, _, _⟩
          cases himpls
    | some impls =>
        simp only []
        cases hfind : impls.find? (fun i => i.paramSig = getParamSignature msig.params) with
        | none =>
            simp only []
            constructor
            · intro hc; cases hc
            · intro ⟨impls2, impl, himpls, hfind2, _⟩
              cases himpls
              rw [hfind] at hfind2
              cases hfind2
        | some impl =>
            simp only []
            by_cases hret : msig.returnType = impl.returnType
            · rw [if_pos hret]
              constructor
              · intro _
                exact ⟨impls, impl, rfl, hfind, hret.symm⟩
              · intro _; rfl
            · rw [if_neg hret]
              constructor
              · intro hc; cases hc
              · intro ⟨impls2, impl2, himpls, hfind2, hr⟩
                cases himpls
                rw [hfind] at hfind2
                cases hfind2
                exact absurd hr.symm hret

/-- Witness for the amended claim's acceptance direction: a class whose
first (and only) `m()`-shaped method returns `int` satisfies the interface
signature `m() -> int`. -/
theorem spice_c5_amended_witness :
    checkMethodImplementation "C" 1 0 "I"
        { name := "m", params := [], returnType := some "int" }
        [("m", [{ paramSig := [], returnType := some "int", line := 2, column := 2 }])] =
      none :=
  (spice_c5_amended.2 "C" 1 0 "I"
    { name := "m", params := [], returnType := some "int" }
    [("m", [{ paramSig := [], returnType := some "int", line := 2, column := 2 }])]).mpr
    ⟨[{ paramSig := [], returnType := some "int", line := 2, column := 2 }],
     { paramSig := [], returnType := some "int", line := 2, column := 2 },
     by decide, by decide, rfl⟩

end Spice.InterfaceChecker

namespace Spice

theorem alookup_aset {α : Type} (m : List (String × α)) (k : String) (v : α) (k2 : String) :
    alookup (aset m k v) k2 = if k = k2 then some v else alookup m k2 := by
  induction m with
  | nil =>
      by_cases h : k = k2
      · simp [aset, alookup, h]
      · simp [aset, alookup, h]
  | cons kv rest ih =>
      unfold aset
      by_cases hk : kv.fst = k
      · by_cases h2 : k = k2
        · simp [alookup, hk, h2]
        · rw [if_pos hk]
          unfold alookup
          have : kv.fst = k2 ↔ False := by
            constructor
            · intro hc; exact h2 (hk.symm.trans hc)
            · intro hc; cases hc
          simp only [this, if_false, if_neg h2]
      · rw [if_neg hk]
        unfold alookup
        by_cases h3 : kv.fst = k2
        · have : ¬ k = k2 := by
            intro hc
            exact hk (h3.trans hc.symm)
          simp [h3, this]
        · simp only [h3, if_false]
          rw [ih]

theorem alookup_isSome_of_mem {α : Type} (m : List (String × α)) (kv : String × α)
    (h : kv ∈ m) : (alookup m kv.fst).isSome := by
  induction m with
  | nil => cases h
  | cons e rest ih =>
      unfold alookup
      by_cases he : e.fst = kv.fst
      · simp [he]
      · rw [if_neg he]
        rcases List.mem_cons.mp h with h2 | h2
        · exact absurd (congrArg Prod.fst h2.symm) he
        · exact ih h2

end Spice

namespace Spice.TypeChecker

theorem matchPairs_extends (tps : List String) :
    ∀ (pairs : List (Option String × Parameter)) (inferred out : List (String × String)),
      matchPairs tps pairs inferred = some out →
      ∀ k v, alookup inferred k = some v → alookup out k = some v := by
  intro pairs
  induction pairs with
  | nil =>
      intro inferred out h k v hk
      simp [matchPairs] at h
      rw [← h]
      exact hk
  | cons pr rest ih =>
      intro inferred out h k v hk
      unfold matchPairs at h
      rcases pr with ⟨argType, param⟩
      cases hann : param.typeAnnot with
      | none => simp [hann] at h
      | some pt =>
          cases harg : argType with
          | none => simp [hann, harg] at h
          | some a =>
              rw [hann, harg] at h
              dsimp only at h
              by_cases htp : tps.contains pt
              · rw [if_pos htp] at h
                cases hbound : alookup inferred pt with
                | some bound =>
                    rw [hbound] at h
                    dsimp only at h
                    by_cases heq : bound = a
                    · rw [if_pos heq] at h
                      exact ih inferred out h k v hk
                    · rw [if_neg heq] at h; cases h
                | none =>
                    rw [hbound] at h
                    dsimp only at h
                    refine ih (aset inferred pt a) out h k v ?_
                    rw [alookup_aset]
                    by_cases hkp : pt = k
                    · rw [hkp] at hbound
                      rw [hbound] at hk
                      cases hk
                    · rw [if_neg hkp]
                      exact hk
              · rw [if_neg htp] at h
                by_cases heq : a = pt
                · rw [if_pos heq] at h
                  exact ih inferred out h k v hk
                · rw [if_neg heq] at h; cases h

theorem matchPairs_sound (tps : List String) :
    ∀ (pairs : List (Option String × Parameter)) (inferred out : List (String × String)),
      matchPairs tps pairs inferred = some out →
      ∀ pr ∈ pairs, ∃ a p pt, pr = (some a, p) ∧ p.typeAnnot = some pt ∧
        ((tps.contains pt ∧ alookup out pt = some a) ∨ (¬ tps.contains pt ∧ a = pt)) := by
  intro pairs
  induction pairs with
  | nil => intro inferred out h pr hpr; cases hpr
  | cons hd rest ih =>
      intro inferred out h pr hpr
      unfold matchPairs at h
      rcases hd with ⟨argType, param⟩
      cases hann : param.typeAnnot with
      | none => simp [hann] at h
      | some pt =>
          cases harg2 : argType with
          | none => simp [hann, harg2] at h
          | some a =>
              subst harg2
              rw [hann] at h
              dsimp only at h
              rcases List.mem_cons.mp hpr with hpr | hpr
              · subst hpr
                by_cases htp : tps.contains pt
                · rw [if_pos htp] at h
                  refine ⟨a, param, pt, rfl, hann, Or.inl ⟨htp, ?_⟩⟩
                  cases hbound : alookup inferred pt with
                  | some bound =>
                      rw [hbound] at h
                      dsimp only at h
                      by_cases heq : bound = a
                      · rw [if_pos heq] at h
                        have := matchPairs_extends tps rest inferred out h pt bound hbound
                        rw [heq] at this
                        exact this
                      · rw [if_neg heq] at h; cases h
                  | none =>
                      rw [hbound] at h
                      dsimp only at h
                      have := matchPairs_extends tps rest (aset inferred pt a) out h pt a
                      refine this ?_
                      rw [alookup_aset]
                      simp
                · rw [if_neg htp] at h
                  by_cases heq : a = pt
                  · exact ⟨a, param, pt, rfl, hann, Or.inr ⟨htp, heq⟩⟩
                  · rw [if_neg heq] at h; cases h
              · by_cases htp : tps.contains pt
                · rw [if_pos htp] at h
                  cases hbound : alookup inferred pt with
                  | some bound =>
                      rw [hbound] at h
                      dsimp only at h
                      by_cases heq : bound = a
                      · rw [if_pos heq] at h
                        exact ih _ out h pr hpr
                      · rw [if_neg heq] at h; cases h
                  | none =>
                      rw [hbound] at h
                      dsimp only at h
                      exact ih _ out h pr hpr
                · rw [if_neg htp] at h
                  by_cases heq : a = pt
                  · rw [if_pos heq] at h
                    exact ih _ out h pr hpr
                  · rw [if_neg heq] at h; cases h

theorem matchPairs_complete (tps : List String) (σ : String → String) :
    ∀ (pairs : List (Option String × Parameter)) (inferred : List (String × String)),
      (∀ k v, alookup inferred k = some v → σ k = v) →
      (∀ pr ∈ pairs, ∃ a p pt, pr = (some a, p) ∧ p.typeAnnot = some pt ∧
        (if tps.contains pt then a = σ pt else a = pt)) →
      (matchPairs tps pairs inferred).isSome := by
  intro pairs
  induction pairs with
  | nil => intro inferred _ _; simp [matchPairs]
  | cons hd rest ih =>
      intro inferred hagree hall
      rcases hall hd (List.mem_cons_self hd rest) with ⟨a, p, pt, hhd, hann, hcond⟩
      subst hhd
      unfold matchPairs
      rw [hann]
      dsimp only
      by_cases htp : tps.contains pt
      · rw [if_pos htp] at hcond ⊢
        cases hbound : alookup inferred pt with
        | some bound =>
            have hba : bound = a := by
              rw [hcond]
              exact (hagree pt bound hbound).symm
            rw [hba]
            dsimp only
            rw [if_pos rfl]
            exact ih inferred hagree (fun pr hpr => hall pr (List.mem_cons_of_mem _ hpr))
        | none =>
            refine ih (aset inferred pt a) ?_ (fun pr hpr => hall pr (List.mem_cons_of_mem _ hpr))
            intro k v hk
            rw [alookup_aset] at hk
            by_cases hkp : pt = k
            · rw [if_pos hkp] at hk
              cases hk
              rw [← hkp, hcond]
            · rw [if_neg hkp] at hk
              exact hagree k v hk
      · rw [if_neg htp] at hcond ⊢
        rw [if_pos hcond]
        exact ih inferred hagree (fun pr hpr => hall pr (List.mem_cons_of_mem _ hpr))

/-- The amended claim for overload agreement: a function's parameters match
the inferred argument types iff the counts agree and there is an assignment
`σ` of concrete types to the class's type parameters that extends the
bindings previously recorded for the receiver variable such that every
generic parameter's argument equals `σ` of it — i.e. all occurrences of one
type parameter in the same call must receive equal argument types, equal to
any previously recorded binding — and every non-generic parameter's
argument type equals the annotation exactly (unannotated parameters and
uninferable arguments never match). -/
theorem spice_c1_amended (argTypes : List (Option String)) (params : List Parameter)
    (typeParams : List String) (existing : List (String × String)) :
    (argumentsMatchGeneric argTypes params typeParams existing).isSome ↔
      (argTypes.length = params.length ∧
        ∃ σ : String → String,
          (∀ k v, alookup existing k = some v → σ k = v) ∧
          ∀ pr ∈ argTypes.zip params, ∃ a p pt, pr = (some a, p) ∧
            p.typeAnnot = some pt ∧
            (if typeParams.contains pt then a = σ pt else a = pt)) := by
  constructor
  · intro h
    rw [argumentsMatchGeneric] at h
    by_cases hlen : argTypes.length = params.length
    · rw [if_pos hlen] at h
      refine ⟨hlen, ?_⟩
      cases hmp : matchPairs typeParams (argTypes.zip params) existing with
      | none => rw [hmp] at h; cases h
      | some out =>
          refine ⟨fun k => (alookup out k).getD k, ?_, ?_⟩
          · intro k v hk
            have := matchPairs_extends typeParams (argTypes.zip params) existing out hmp k v hk
            dsimp only
            rw [this]
            rfl
          · intro pr hpr
            rcases matchPairs_sound typeParams (argTypes.zip params) existing out hmp pr hpr
              with ⟨a, p, pt, hpr2, hann, hcond⟩
            refine ⟨a, p, pt, hpr2, hann, ?_⟩
            rcases hcond with ⟨htp, hout⟩ | ⟨htp, heq⟩
            · rw [if_pos htp]
              dsimp only
              rw [hout]
              rfl
            · rw [if_neg htp]
              exact heq
    · rw [if_neg hlen] at h
      cases h
  · intro ⟨hlen, σ, hagree, hall⟩
    rw [argumentsMatchGeneric, if_pos hlen]
    cases hmp : matchPairs typeParams (argTypes.zip params) existing with
    | none =>
        have := matchPairs_complete typeParams σ (argTypes.zip params) existing hagree hall
        rw [hmp] at this
        cases this
    | some out => rfl

end Spice.TypeChecker

namespace Spice.TypeChecker

open Spice.SymbolTableM

/-- The overload `set(a: T, b: T)` of the generic class `Box<T>`. -/
def c1SetParams : List Parameter :=
  [{ name := "a", typeAnnot := some "T" }, { name := "b", typeAnnot := some "T" }]

/-- Symbol table with `class Box<T> { def set(a: T, b: T) }` and a global
variable `box: Box`. -/
def c1Table : SymbolTable :=
  { scopes := [("global",
      { name := "global", parent := none
        vars := [("box", { name := "box", typeAnnot := some "Box" })]
        functions := [] })]
    classes := [("Box",
      { name := "Box"
        methods := [("set",
          [{ name := "set", params := c1SetParams, returnType := none, scope := "Box" }])]
        scope := "global", typeParameters := ["T"] })]
    interfaces := [] }

/-- Checker state with no recorded generic bindings. -/
def c1State : TCState := { errors := [], scopeStack := ["global"], genericBindings := [] }

/-- The callee `box.set` of the call `box.set(1, "s")`. -/
def c1Callee : Expr := Expr.attribute (Expr.identifier "box" 2 0) "set" 2 0

/-- The arguments `1, "s"` of the call `box.set(1, "s")`. -/
def c1Args : List Expr := [Expr.literal "number" 2 8, Expr.literal "string" 2 11]

/-- Counterexample to C1 as stated: for the call `box.set(1, "s")` no
binding for `T` has been recorded against `box`, both parameters are
annotated with the receiver class's generic parameter `T`, and both
argument types are concrete — so under the claim every (argument,
parameter) pair agrees and an overload must be selected — yet the checker
rejects the call with the no-overload diagnostic, because it additionally
requires all occurrences of `T` within one call to receive equal argument
types. -/
theorem spice_c1_counterexample :
    alookup c1State.genericBindings "box" = none ∧
    (∀ p ∈ c1SetParams, p.typeAnnot = some "T") ∧
    (alookup c1Table.classes "Box").map (fun cs => cs.typeParameters) = some ["T"] ∧
    c1Args.map (inferExpressionType c1Table "global") = [some "int", some "str"] ∧
    (checkCallExpression c1Table c1State 2 0 c1Callee c1Args).errors =
      [{ message := "No overload of Box.set matches argument types (int, str)"
         line := 2, column := 0 }] := by
  refine ⟨by decide, by decide, by decide, ?_, ?_⟩
  · simp [c1Args, inferExpressionType, literalToType]
  · simp [checkCallExpression, c1Callee, c1Args, c1Table, c1State, resolveCallee,
      currentScope, inferExpressionType, inferAttributeType, inferCallReturn,
      lookupVariable, lookupVariableAux, alookup, literalToType, firstMatchingOverload,
      argumentsMatchGeneric, matchPairs, c1SetParams, aset, joinComma, optTypeStr]

theorem updateAll_lookup_ne (nb : List (String × String)) :
    ∀ (base : List (String × String)) (T : String),
      (∀ kv ∈ nb, kv.fst ≠ T) →
      alookup (updateAll base nb) T = alookup base T := by
  induction nb with
  | nil => intro base T _; rfl
  | cons kv rest ih =>
      intro base T hne
      unfold updateAll
      rw [List.foldl_cons]
      have h1 : alookup (updateAll (aset base kv.fst kv.snd) rest) T =
          alookup (aset base kv.fst kv.snd) T :=
        ih (aset base kv.fst kv.snd) T (fun e he => hne e (List.mem_cons_of_mem kv he))
      rw [show (List.foldl (fun acc kv => aset acc kv.fst kv.snd)
        (aset base kv.fst kv.snd) rest) = updateAll (aset base kv.fst kv.snd) rest from rfl]
      rw [h1, alookup_aset]
      rw [if_neg (hne kv (List.mem_cons_self kv rest))]

theorem argumentsMatchGeneric_newKeys (argTypes : List (Option String))
    (params : List Parameter) (tps : List String) (existing nb : List (String × String))
    (h : argumentsMatchGeneric argTypes params tps existing = some nb) :
    ∀ kv ∈ nb, (alookup existing kv.fst).isNone := by
  unfold argumentsMatchGeneric at h
  by_cases hlen : argTypes.length = params.length
  · rw [if_pos hlen] at h
    cases hmp : matchPairs tps (argTypes.zip params) existing with
    | none => rw [hmp] at h; cases h
    | some out =>
        rw [hmp] at h
        dsimp only at h
        cases h
        intro kv hkv
        exact (List.mem_filter.mp hkv).2
  · rw [if_neg hlen] at h; cases h

theorem firstMatchingOverload_some (argTypes : List (Option String)) :
    ∀ (functions : List FunctionSymbol) (tps : List String)
      (existing nb : List (String × String)),
      firstMatchingOverload argTypes functions tps existing = some nb →
      ∃ f ∈ functions, argumentsMatchGeneric argTypes f.params tps existing = some nb := by
  intro functions
  induction functions with
  | nil => intro tps existing nb h; cases h
  | cons f rest ih =>
      intro tps existing nb h
      unfold firstMatchingOverload at h
      cases hg : argumentsMatchGeneric argTypes f.params tps existing with
      | some nb2 =>
          rw [hg] at h
          dsimp only at h
          cases h
          exact ⟨f, List.mem_cons_self f rest, hg⟩
      | none =>
          rw [hg] at h
          dsimp only at h
          rcases ih tps existing nb h with ⟨f2, hf2, hm⟩
          exact ⟨f2, List.mem_cons_of_mem f hf2, hm⟩

theorem matchPairs_nilTps :
    ∀ (pairs : List (Option String × Parameter)) (inferred out : List (String × String)),
      matchPairs [] pairs inferred = some out → out = inferred := by
  intro pairs
  induction pairs with
  | nil => intro inferred out h; simpa [matchPairs] using h.symm
  | cons hd rest ih =>
      intro inferred out h
      unfold matchPairs at h
      rcases hd with ⟨argType, param⟩
      cases hann : param.typeAnnot with
      | none => simp [hann] at h
      | some pt =>
          cases harg : argType with
          | none => simp [hann, harg] at h
          | some a =>
              rw [hann, harg] at h
              dsimp only at h
              rw [if_neg (by simp)] at h
              by_cases heq : a = pt
              · rw [if_pos heq] at h
                exact ih inferred out h
              · rw [if_neg heq] at h; cases h

theorem filter_self_isNone (m : List (String × String)) :
    m.filter (fun kv => (alookup m kv.fst).isNone) = [] := by
  rw [List.filter_eq_nil]
  intro kv hkv
  have := alookup_isSome_of_mem m kv hkv
  simp only [Option.isNone]
  cases hlk : alookup m kv.fst with
  | none => rw [hlk] at this; cases this
  | some w => simp

theorem argumentsMatchGeneric_nilTps (argTypes : List (Option String))
    (params : List Parameter) (existing nb : List (String × String))
    (h : argumentsMatchGeneric argTypes params [] existing = some nb) : nb = [] := by
  unfold argumentsMatchGeneric at h
  by_cases hlen : argTypes.length = params.length
  · rw [if_pos hlen] at h
    cases hmp : matchPairs [] (argTypes.zip params) existing with
    | none => rw [hmp] at h; cases h
    | some out =>
        rw [hmp] at h
        dsimp only at h
        cases h
        rw [matchPairs_nilTps (argTypes.zip params) existing out hmp]
        exact filter_self_isNone existing
  · rw [if_neg hlen] at h; cases h

end Spice.TypeChecker

namespace Spice.TypeChecker

open Spice.SymbolTableM

/-- `_check_call_expression` never deletes an individual generic binding: a
binding `T ↦ c` recorded against a variable name `v` survives every checked
call (it is either left alone or merged with `dict.update`, whose new keys
never collide with the ones already present for the same receiver). -/
theorem checkCall_preserves (t : SymbolTable) (st : TCState) (curLine curCol : Nat)
    (callee : Expr) (args : List Expr) (v T c : String)
    (h : alookup ((alookup st.genericBindings v).getD []) T = some c) :
    alookup ((alookup (checkCallExpression t st curLine curCol callee args).genericBindings
      v).getD []) T = some c := by
  unfold checkCallExpression
  cases hrc : resolveCallee t (currentScope st) callee with
  | none => exact h
  | some tri =>
      obtain ⟨functions, owner, varName⟩ := tri
      dsimp only
      cases functions with
      | nil => exact h
      | cons f0 fr =>
          dsimp only
          cases owner with
          | none =>
              dsimp only
              cases hfm : firstMatchingOverload
                  (args.map (inferExpressionType t (currentScope st))) (f0 :: fr) [] [] with
              | none => dsimp only; exact h
              | some nb =>
                  dsimp only
                  cases varName with
                  | none => exact h
                  | some v2 =>
                      dsimp only
                      obtain ⟨f, _, hm⟩ := firstMatchingOverload_some _ _ _ _ _ hfm
                      have hnil : nb = [] := argumentsMatchGeneric_nilTps _ _ _ _ hm
                      rw [if_neg (fun hn => hn hnil)]
                      exact h
          | some o =>
              dsimp only
              cases hcls : alookup t.classes o with
              | none =>
                  simp only [Option.isSome_none, Bool.false_eq_true, if_false]
                  cases hfm : firstMatchingOverload
                      (args.map (inferExpressionType t (currentScope st))) (f0 :: fr) [] [] with
                  | none => dsimp only; exact h
                  | some nb =>
                      dsimp only
                      cases varName with
                      | none => exact h
                      | some v2 =>
                          dsimp only
                          obtain ⟨f, _, hm⟩ := firstMatchingOverload_some _ _ _ _ _ hfm
                          have hnil : nb = [] := argumentsMatchGeneric_nilTps _ _ _ _ hm
                          rw [if_neg (fun hn => hn hnil)]
                          exact h
              | some cs =>
                  simp only [Option.isSome_some, if_true]
                  cases varName with
                  | none =>
                      dsimp only
                      cases hfm : firstMatchingOverload
                          (args.map (inferExpressionType t (currentScope st))) (f0 :: fr)
                          cs.typeParameters [] with
                      | none => dsimp only; exact h
                      | some nb => dsimp only; exact h
                  | some v2 =>
                      dsimp only
                      cases hfm : firstMatchingOverload
                          (args.map (inferExpressionType t (currentScope st))) (f0 :: fr)
                          cs.typeParameters ((alookup st.genericBindings v2).getD []) with
                      | none => dsimp only; exact h
                      | some nb =>
                          dsimp only
                          by_cases hnb : nb = []
                          · rw [if_neg (fun hn => hn hnb)]
                            exact h
                          · rw [if_pos hnb]
                            dsimp only
                            rw [alookup_aset]
                            by_cases hv : v2 = v
                            · rw [if_pos hv]
                              dsimp only [Option.getD]
                              subst hv
                              have hkeys : ∀ kv ∈ nb, kv.fst ≠ T := by
                                intro kv hkv hEq
                                obtain ⟨f, _, hm⟩ := firstMatchingOverload_some _ _ _ _ _ hfm
                                have h2 := argumentsMatchGeneric_newKeys _ _ _ _ _ hm kv hkv
                                rw [hEq, h] at h2
                                cases h2
                              rw [updateAll_lookup_ne nb _ T hkeys]
                              exact h
                            · rw [if_neg hv]
                              exact h

end Spice.TypeChecker

namespace Spice.TypeChecker

open Spice.SymbolTableM

theorem enforce_bindings (t : SymbolTable) (st : TCState) (curLine curCol : Nat)
    (target : Expr) (value : Option Expr) :
    (enforceAssignAnnot t st curLine curCol target value).genericBindings =
      st.genericBindings := by
  cases target <;> dsimp only [enforceAssignAnnot]
  case identifier tname l2 c2 =>
    split
    · rfl
    · cases value with
      | none => rfl
      | some e =>
          cases e <;> dsimp only
          case call callee args l3 c3 => split <;> rfl
          all_goals rfl
  all_goals rfl

theorem pushScope_bindings (st : TCState) (name : String) :
    (pushScope st name).genericBindings = st.genericBindings := rfl

theorem popScope_bindings (st : TCState) :
    (popScope st).genericBindings = st.genericBindings := by
  unfold popScope; split <;> rfl

theorem visitAssignment_preserves (t : SymbolTable) (st : TCState) (curLine curCol : Nat)
    (target : Expr) (value : Option Expr) (v T c : String)
    (h : alookup ((alookup st.genericBindings v).getD []) T = some c) :
    alookup ((alookup (visitAssignment t st curLine curCol target value).genericBindings
      v).getD []) T = some c := by
  unfold visitAssignment
  dsimp only
  rw [enforce_bindings]
  cases value with
  | none => exact h
  | some e =>
      cases e <;> dsimp only
      case call callee args l3 c3 =>
        exact checkCall_preserves t st curLine curCol callee args v T c h
      all_goals exact h

theorem visitExprStmt_preserves (t : SymbolTable) (st : TCState) (e : Expr)
    (line column : Nat) (v T c : String)
    (h : alookup ((alookup st.genericBindings v).getD []) T = some c) :
    alookup ((alookup (visitExpressionStatement t st e line column).genericBindings
      v).getD []) T = some c := by
  unfold visitExpressionStatement
  cases e <;> dsimp only
  case call callee args l3 c3 =>
    exact checkCall_preserves t st line column callee args v T c h
  case assignment target value ta l3 c3 =>
    split
    · exact visitAssignment_preserves t st line column target value v T c h
    · exact h
  all_goals exact h

/-- Binding preservation for a single visited node. -/
def PreservesNode (n : Node) : Prop :=
  ∀ (t : SymbolTable) (st : TCState) (v T c : String),
    alookup ((alookup st.genericBindings v).getD []) T = some c →
    alookup ((alookup (visitNode t st n).genericBindings v).getD []) T = some c

/-- Binding preservation for a visited node list. -/
def PreservesList (l : List Node) : Prop :=
  ∀ (t : SymbolTable) (st : TCState) (v T c : String),
    alookup ((alookup st.genericBindings v).getD []) T = some c →
    alookup ((alookup (visitNodes t st l).genericBindings v).getD []) T = some c

theorem visit_preserves (n0 : Node) : PreservesNode n0 := by
  refine Node.rec (motive_1 := PreservesNode) (motive_2 := PreservesList)
    ?_ ?_ ?_ ?_ ?_ ?_ ?_ ?_ n0
  · intro name tps bases ifaces body fin line col ihbody
    intro t st v T c h
    unfold visitNode
    rw [popScope_bindings]
    exact ihbody t (pushScope st name) v T c h
  · intro name params body rt fin line col ihbody
    intro t st v T c h
    unfold visitNode
    dsimp only
    rw [popScope_bindings]
    exact ihbody t _ v T c h
  · intro name methods line col t st v T c h
    unfold visitNode; exact h
  · intro e line col t st v T c h
    unfold visitNode
    exact visitExprStmt_preserves t st e line col v T c h
  · intro tgt ta line col t st v T c h
    unfold visitNode; exact h
  · intro t st v T c h
    unfold visitNode; exact h
  · intro t st v T c h
    unfold visitNodes; exact h
  · intro head tail ih1 ih2
    intro t st v T c h
    unfold visitNodes
    exact ih2 t (visitNode t st head) v T c (ih1 t st v T c h)

theorem visitList_preserves (l : List Node) : PreservesList l := by
  induction l with
  | nil => intro t st v T c h; unfold visitNodes; exact h
  | cons head tail ih =>
      intro t st v T c h
      unfold visitNodes
      exact ih t (visitNode t st head) v T c (visit_preserves head t st v T c h)

end Spice.TypeChecker

namespace Spice.TypeChecker

open Spice.SymbolTableM

/-- The single overload `m(x: T)` of the generic class `K<T>` (C10). -/
def c10MParams : List Parameter := [{ name := "x", typeAnnot := some "T" }]

/-- Symbol table with `class K<T> { def m(x: T) }` and globals `v: K`,
`w: tyW` for a parameter type `tyW` (C10). -/
def c10Table (tyW : String) : SymbolTable :=
  { scopes := [("global",
      { name := "global", parent := none
        vars := [("v", { name := "v", typeAnnot := some "K" }),
                 ("w", { name := "w", typeAnnot := some tyW })]
        functions := [] })]
    classes := [("K",
      { name := "K"
        methods := [("m",
          [{ name := "m", params := c10MParams, returnType := none, scope := "K" }])]
        scope := "global", typeParameters := ["T"] })]
    interfaces := [] }

/-- Checker state in which an earlier call already bound `T ↦ c` against the
variable name `v` (C10). -/
def c10State (c : String) : TCState :=
  { errors := [], scopeStack := ["global"], genericBindings := [("v", [("T", c)])] }

/-- The callee `v.m` of the later call `v.m(w)` (C10). -/
def c10Callee : Expr := Expr.attribute (Expr.identifier "v" 3 0) "m" 3 0

/-- The argument list `(w)` of the later call `v.m(w)` (C10). -/
def c10Args : List Expr := [Expr.identifier "w" 3 4]

theorem c10_call_schema (tyW c : String) (curLine curCol : Nat) :
    (checkCallExpression (c10Table tyW) (c10State c) curLine curCol
        c10Callee c10Args).errors =
      if c = tyW then []
      else [{ message := "No overload of " ++ "K." ++ "m" ++
                " matches argument types (" ++ tyW ++ ")"
              line := curLine, column := curCol }] := by
  by_cases hc : c = tyW <;>
    simp [checkCallExpression, c10Callee, c10Args, c10Table, c10State, resolveCallee,
      currentScope, inferExpressionType, inferAttributeType, inferCallReturn,
      lookupVariable, lookupVariableAux, alookup, literalToType, firstMatchingOverload,
      argumentsMatchGeneric, matchPairs, c10MParams, aset, joinComma, optTypeStr, hc]

end Spice.TypeChecker

namespace Spice.TypeChecker

open Spice.SymbolTableM

/-- C10: within one unit's type check the generic-binding map, keyed solely
by variable name, is never cleared or rolled back — a binding `T ↦ c`
recorded against a variable name `v` survives the visit of every node and
node list (in particular across scope pushes and pops and across later
assignments to `v`); and once `T ↦ c` is recorded for `v`, a later checked
call `v.m(w)` through a variable named `v` (class `K<T>` with the single
overload `m(x: T)`, argument `w` of type `tyW`) is accepted iff `tyW` equals
the recorded `c`, and otherwise is rejected with the diagnostic
`No overload of K.m matches argument types (tyW)`. -/
theorem spice_c10_binding_persistence :
    (∀ (n : Node) (t : SymbolTable) (st : TCState) (v T c : String),
        alookup ((alookup st.genericBindings v).getD []) T = some c →
        alookup ((alookup (visitNode t st n).genericBindings v).getD []) T = some c) ∧
    (∀ (l : List Node) (t : SymbolTable) (st : TCState) (v T c : String),
        alookup ((alookup st.genericBindings v).getD []) T = some c →
        alookup ((alookup (visitNodes t st l).genericBindings v).getD []) T = some c) ∧
    (∀ (tyW c : String) (curLine curCol : Nat),
        (checkCallExpression (c10Table tyW) (c10State c) curLine curCol
            c10Callee c10Args).errors =
          if c = tyW then []
          else [{ message := "No overload of " ++ "K." ++ "m" ++
                    " matches argument types (" ++ tyW ++ ")"
                  line := curLine, column := curCol }]) :=
  ⟨fun n => visit_preserves n, fun l => visitList_preserves l,
   fun tyW c curLine curCol => c10_call_schema tyW c curLine curCol⟩

/-- Witness for C10 at concrete inputs: the binding `T ↦ int` for `v`
survives visiting an assignment statement to `v`, and the call `v.m(w)`
with `w : int` under the recorded binding `T ↦ int` produces no error while
`w : str` under the same binding is rejected. -/
theorem spice_c10_binding_persistence_witness :
    alookup ((alookup (visitNode (c10Table "int") (c10State "int")
        (Node.exprStmt (Expr.assignment (Expr.identifier "v" 4 0)
          (some (Expr.literal "number" 4 4)) none 4 0) 4 0)).genericBindings
        "v").getD []) "T" = some "int" ∧
    (checkCallExpression (c10Table "int") (c10State "int") 3 0
        c10Callee c10Args).errors = [] ∧
    (checkCallExpression (c10Table "str") (c10State "int") 3 0
        c10Callee c10Args).errors =
      [{ message := "No overload of " ++ "K." ++ "m" ++
          " matches argument types (" ++ "str" ++ ")"
         line := 3, column := 0 }] := by
  refine ⟨?_, ?_, ?_⟩
  · exact spice_c10_binding_persistence.1
      (Node.exprStmt (Expr.assignment (Expr.identifier "v" 4 0)
        (some (Expr.literal "number" 4 4)) none 4 0) 4 0)
      (c10Table "int") (c10State "int") "v" "T" "int" (by decide)
  · have h := spice_c10_binding_persistence.2.2 "int" "int" 3 0
    simpa using h
  · have h := spice_c10_binding_persistence.2.2 "str" "int" 3 0
    simpa using h
end Spice.TypeChecker

namespace Spice.TypeChecker

/-- Witness for the C1 characterization at a concrete input: a single
non-generic `int` parameter accepts an `int` argument. -/
theorem spice_c1_amended_witness :
    (argumentsMatchGeneric [some "int"]
      [{ name := "x", typeAnnot := some "int" }] [] []).isSome := by
  refine (spice_c1_amended _ _ _ _).mpr ⟨rfl, fun _ => "int", ?_, ?_⟩
  · intro k v hk
    simp [Spice.alookup] at hk
  · intro pr hpr
    have hp : pr = (some "int", ({ name := "x", typeAnnot := some "int" } : Parameter)) := by
      simpa using hpr
    subst hp
    exact ⟨"int", { name := "x", typeAnnot := some "int" }, "int", rfl, rfl, by simp⟩

end Spice.TypeChecker

namespace Spice

theorem alookup_mem {α : Type} (m : List (String × α)) (k : String) (v : α)
    (h : alookup m k = some v) : (k, v) ∈ m := by
  induction m with
  | nil => simp [alookup] at h
  | cons p rest ih =>
      unfold alookup at h
      by_cases hp : p.fst = k
      · rcases p with ⟨k2, v2⟩
        dsimp only at hp
        rw [if_pos hp] at h
        cases h
        subst hp
        exact List.mem_cons_self _ _
      · rcases p with ⟨k2, v2⟩
        dsimp only at hp
        rw [if_neg hp] at h
        exact List.mem_cons_of_mem _ (ih h)

theorem alookup_isSome_iff {α : Type} (m : List (String × α)) (k : String) :
    (alookup m k).isSome ↔ ∃ p ∈ m, p.fst = k := by
  induction m with
  | nil => simp [alookup]
  | cons p rest ih =>
      rcases p with ⟨k2, v2⟩
      by_cases hp : k2 = k
      · simp [alookup, hp]
      · rw [show alookup ((k2, v2) :: rest) k = alookup rest k from by simp [alookup, hp]]
        rw [ih]
        constructor
        · rintro ⟨q, hq, hf⟩
          exact ⟨q, List.mem_cons_of_mem _ hq, hf⟩
        · rintro ⟨q, hq, hf⟩
          rcases List.mem_cons.mp hq with rfl | hq2
          · exact absurd hf hp
          · exact ⟨q, hq2, hf⟩

theorem alookup_append_single {α : Type} (m : List (String × α)) (k : String) (v : α)
    (k2 : String) :
    alookup (m ++ [(k, v)]) k2 =
      match alookup m k2 with
      | some v2 => some v2
      | none => if k = k2 then some v else none := by
  induction m with
  | nil => simp [alookup]
  | cons p rest ih =>
      rcases p with ⟨k3, v3⟩
      by_cases hp : k3 = k2
      · simp [alookup, hp]
      · rw [List.cons_append]
        rw [show alookup ((k3, v3) :: (rest ++ [(k, v)])) k2 = alookup (rest ++ [(k, v)]) k2
          from by simp [alookup, hp]]
        rw [show alookup ((k3, v3) :: rest) k2 = alookup rest k2 from by simp [alookup, hp]]
        exact ih

theorem alookup_asetdefault_isSome {α : Type} (m : List (String × α)) (k : String)
    (v : α) (k2 : String) :
    (alookup (asetdefault m k v) k2).isSome ↔ (alookup m k2).isSome ∨ k = k2 := by
  unfold asetdefault
  by_cases h : (alookup m k).isSome
  · rw [if_pos h]
    constructor
    · exact Or.inl
    · rintro (h2 | rfl)
      · exact h2
      · exact h
  · rw [if_neg h]
    rw [alookup_append_single]
    cases hm : alookup m k2 with
    | some v2 => simp
    | none =>
        dsimp only
        by_cases hk : k = k2
        · simp [hk]
        · simp [hk, hm]

theorem mem_asetdefault {α : Type} (m : List (String × α)) (k : String) (v : α)
    (q : String × α) (h : q ∈ asetdefault m k v) : q ∈ m ∨ q = (k, v) := by
  unfold asetdefault at h
  split at h
  · exact Or.inl h
  · rcases List.mem_append.mp h with h2 | h2
    · exact Or.inl h2
    · exact Or.inr (List.mem_singleton.mp h2)

theorem foldl_setdefault_mem {α : Type} (l : List (String × α)) :
    ∀ (acc : List (String × α)) (q : String × α),
      q ∈ l.foldl (fun a p => asetdefault a p.fst p.snd) acc → q ∈ acc ∨ q ∈ l := by
  induction l with
  | nil => intro acc q h; exact Or.inl h
  | cons p rest ih =>
      intro acc q h
      rw [List.foldl_cons] at h
      rcases ih (asetdefault acc p.fst p.snd) q h with h2 | h2
      · rcases mem_asetdefault acc p.fst p.snd q h2 with h3 | h3
        · exact Or.inl h3
        · right
          rw [h3]
          exact List.mem_cons_self p rest
      · exact Or.inr (List.mem_cons_of_mem p h2)

theorem foldl_setdefault_isSome {α : Type} (l : List (String × α)) :
    ∀ (acc : List (String × α)) (k : String),
      (alookup (l.foldl (fun a p => asetdefault a p.fst p.snd) acc) k).isSome ↔
        (alookup acc k).isSome ∨ ∃ p ∈ l, p.fst = k := by
  induction l with
  | nil => intro acc k; simp
  | cons p rest ih =>
      intro acc k
      rw [List.foldl_cons, ih, alookup_asetdefault_isSome]
      constructor
      · rintro ((h | h) | ⟨q, hq, hf⟩)
        · exact Or.inl h
        · exact Or.inr ⟨p, List.mem_cons_self p rest, h⟩
        · exact Or.inr ⟨q, List.mem_cons_of_mem p hq, hf⟩
      · rintro (h | ⟨q, hq, hf⟩)
        · exact Or.inl (Or.inl h)
        · rcases List.mem_cons.mp hq with rfl | hq2
          · exact Or.inl (Or.inr hf)
          · exact Or.inr ⟨q, hq2, hf⟩

theorem foldl_merge_mem {β : Type} (L : List β) (g : β → List (String × String)) :
    ∀ (acc : List (String × String)) (q : String × String),
      q ∈ L.foldl (fun acc2 a =>
        (g a).foldl (fun a3 p => asetdefault a3 p.fst p.snd) acc2) acc →
      q ∈ acc ∨ ∃ a ∈ L, q ∈ g a := by
  induction L with
  | nil => intro acc q h; exact Or.inl h
  | cons a rest ih =>
      intro acc q h
      rw [List.foldl_cons] at h
      rcases ih _ q h with h2 | ⟨a2, ha2, hq2⟩
      · rcases foldl_setdefault_mem (g a) acc q h2 with h3 | h3
        · exact Or.inl h3
        · exact Or.inr ⟨a, List.mem_cons_self a rest, h3⟩
      · exact Or.inr ⟨a2, List.mem_cons_of_mem a ha2, hq2⟩

theorem foldl_merge_isSome {β : Type} (L : List β) (g : β → List (String × String)) :
    ∀ (acc : List (String × String)) (k : String),
      (alookup (L.foldl (fun acc2 a =>
          (g a).foldl (fun a3 p => asetdefault a3 p.fst p.snd) acc2) acc) k).isSome ↔
        (alookup acc k).isSome ∨ ∃ a ∈ L, ∃ p ∈ g a, p.fst = k := by
  induction L with
  | nil => intro acc k; simp
  | cons a rest ih =>
      intro acc k
      rw [List.foldl_cons, ih, foldl_setdefault_isSome]
      constructor
      · rintro ((h | ⟨p, hp, hf⟩) | ⟨a2, ha2, hp⟩)
        · exact Or.inl h
        · exact Or.inr ⟨a, List.mem_cons_self a rest, p, hp, hf⟩
        · exact Or.inr ⟨a2, List.mem_cons_of_mem a ha2, hp⟩
      · rintro (h | ⟨a2, ha2, p, hp, hf⟩)
        · exact Or.inl (Or.inl h)
        · rcases List.mem_cons.mp ha2 with rfl | ha3
          · exact Or.inl (Or.inr ⟨p, hp, hf⟩)
          · exact Or.inr ⟨a2, ha3, p, hp, hf⟩

theorem alookup_map_pair_isSome (L : List String) (b : String) (mn : String)
    (h : mn ∈ L) : (alookup (L.map (fun x => (x, b))) mn).isSome := by
  induction L with
  | nil => cases h
  | cons x rest ih =>
      rw [List.map_cons]
      unfold alookup
      by_cases hx : x = mn
      · rw [if_pos hx]; rfl
      · rw [if_neg hx]
        rcases List.mem_cons.mp h with rfl | h2
        · exact absurd rfl hx
        · exact ih h2

end Spice

namespace Spice.FinalChecker

/-- Reachability in the declared-inheritance graph: `Reaches cb b B` holds
iff `B` is `b` itself or an ancestor of `b` through the `bases` edges
recorded in `cb` (the `class_nodes` map restricted to its bases lists). -/
inductive Reaches (cb : List (String × List String)) : String → String → Prop where
  | refl (b : String) : Reaches cb b b
  | step (b c d : String) (bs : List String) (h1 : Spice.alookup cb b = some bs)
      (h2 : c ∈ bs) (h3 : Reaches cb c d) : Reaches cb b d

/-- A length-indexed inheritance chain whose every node avoids `visited`. -/
inductive ChainAvoid (cb : List (String × List String)) (visited : List String) :
    Nat → String → String → Prop where
  | refl (b : String) (h : visited.contains b = false) : ChainAvoid cb visited 0 b b
  | step (n : Nat) (b c d : String) (bs : List String)
      (hb : visited.contains b = false) (h1 : Spice.alookup cb b = some bs)
      (h2 : c ∈ bs) (h3 : ChainAvoid cb visited n c d) :
      ChainAvoid cb visited (n + 1) b d

theorem chainAvoid_reaches (cb : List (String × List String)) (visited : List String) :
    ∀ (n : Nat) (b d : String), ChainAvoid cb visited n b d → Reaches cb b d := by
  intro n
  induction n with
  | zero =>
      intro b d h
      cases h
      exact Reaches.refl b
  | succ n ih =>
      intro b d h
      cases h with
      | step _ _ c _ bs hb h1 h2 h3 =>
          exact Reaches.step b c d bs h1 h2 (ih c d h3)

theorem reaches_chain (cb : List (String × List String)) (b d : String)
    (h : Reaches cb b d) : ∃ n, ChainAvoid cb [] n b d := by
  induction h with
  | refl b2 => exact ⟨0, ChainAvoid.refl b2 rfl⟩
  | step b2 c d2 bs h1 h2 h3 ih =>
      obtain ⟨n, hn⟩ := ih
      exact ⟨n + 1, ChainAvoid.step n b2 c d2 bs rfl h1 h2 hn⟩

theorem contains_cons_false (c x : String) (vs : List String)
    (h1 : c ≠ x) (h2 : vs.contains c = false) : (x :: vs).contains c = false := by
  simp only [List.contains_cons, Bool.or_eq_false_iff]
  constructor
  · simp only [beq_eq_false_iff_ne, ne_eq]
    exact h1
  · exact h2

theorem chain_decompose (cb : List (String × List String)) (visited : List String)
    (x : String) :
    ∀ (n : Nat) (c d : String), ChainAvoid cb visited n c d →
      (∃ k ≤ n, ChainAvoid cb (x :: visited) k c d) ∨
      (∃ j ≤ n, ChainAvoid cb visited j x d) := by
  intro n
  induction n with
  | zero =>
      intro c d h
      cases h with
      | refl _ hv =>
          by_cases hc : c = x
          · subst hc
            exact Or.inr ⟨0, Nat.le_refl 0, ChainAvoid.refl c hv⟩
          · exact Or.inl ⟨0, Nat.le_refl 0, ChainAvoid.refl c (contains_cons_false c x visited hc hv)⟩
  | succ n ih =>
      intro c d h
      cases h with
      | step _ _ c2 _ bs hb h1 h2 h3 =>
          by_cases hc : c = x
          · subst hc
            exact Or.inr ⟨n + 1, Nat.le_refl _, ChainAvoid.step n c c2 d bs hb h1 h2 h3⟩
          · rcases ih c2 d h3 with ⟨k, hk, ch⟩ | ⟨j, hj, ch⟩
            · exact Or.inl ⟨k + 1, Nat.succ_le_succ hk,
                ChainAvoid.step k c c2 d bs (contains_cons_false c x visited hc hb) h1 h2 ch⟩
            · exact Or.inr ⟨j, Nat.le_succ_of_le hj, ch⟩

end Spice.FinalChecker

namespace Spice.FinalChecker

theorem collectFinal_cases (cb fb : List (String × List String)) (base : String)
    (visited : List String) (q : String × String)
    (hq : q ∈ collectFinalFromBase cb fb base visited) :
    visited.contains base = false ∧
    ((q.snd = base ∧ q.fst ∈ (Spice.alookup fb base).getD []) ∨
     ∃ bs, Spice.alookup cb base = some bs ∧ ∃ a ∈ bs,
       q ∈ collectFinalFromBase cb fb a (base :: visited)) := by
  rw [collectFinalFromBase.eq_def] at hq
  split at hq
  · exact absurd hq (List.not_mem_nil q)
  · rename_i hbv
    refine ⟨by simpa using hbv, ?_⟩
    dsimp only at hq
    split at hq
    · rename_i hcb
      obtain ⟨mn, hmn, hpair⟩ := List.mem_map.mp hq
      left
      constructor
      · rw [← hpair]
      · rw [← hpair]
        exact hmn
    · rename_i bs hcb
      rcases Spice.foldl_merge_mem bs.attach
          (fun a => collectFinalFromBase cb fb a.val (base :: visited)) _ q hq with
        h2 | ⟨a, _, hqa⟩
      · obtain ⟨mn, hmn, hpair⟩ := List.mem_map.mp h2
        left
        constructor
        · rw [← hpair]
        · rw [← hpair]
          exact hmn
      · right
        exact ⟨bs, hcb, a.val, a.property, hqa⟩

theorem collectFinal_key_intro (cb fb : List (String × List String)) (base : String)
    (visited : List String) (mn : String)
    (hv : visited.contains base = false)
    (h : mn ∈ (Spice.alookup fb base).getD [] ∨
         ∃ bs, Spice.alookup cb base = some bs ∧ ∃ a ∈ bs,
           (Spice.alookup (collectFinalFromBase cb fb a (base :: visited)) mn).isSome) :
    (Spice.alookup (collectFinalFromBase cb fb base visited) mn).isSome := by
  rw [collectFinalFromBase.eq_def]
  split
  · rename_i hbv
    rw [hv] at hbv
    cases hbv
  · rename_i hbv
    dsimp only
    split
    · rename_i hcb
      rcases h with h2 | ⟨bs, hbs, _⟩
      · exact Spice.alookup_map_pair_isSome _ base mn h2
      · rw [hcb] at hbs
        cases hbs
    · rename_i bs hcb
      rw [Spice.foldl_merge_isSome bs.attach
        (fun a => collectFinalFromBase cb fb a.val (base :: visited))]
      rcases h with h2 | ⟨bs2, hbs2, a, ha, hsome⟩
      · exact Or.inl (Spice.alookup_map_pair_isSome _ base mn h2)
      · rw [hcb] at hbs2
        cases hbs2
        right
        obtain ⟨p, hp, hf⟩ := (Spice.alookup_isSome_iff _ mn).mp hsome
        exact ⟨⟨a, ha⟩, List.mem_attach bs ⟨a, ha⟩, p, hp, hf⟩

end Spice.FinalChecker

namespace Spice.FinalChecker

theorem collectFinal_sound (cb fb : List (String × List String)) :
    ∀ (N : Nat) (visited : List String) (base : String) (q : String × String),
      unseenCount cb visited ≤ N →
      q ∈ collectFinalFromBase cb fb base visited →
      Reaches cb base q.snd ∧ q.fst ∈ (Spice.alookup fb q.snd).getD [] := by
  intro N
  induction N with
  | zero =>
      intro visited base q hb hq
      obtain ⟨hv, hcase⟩ := collectFinal_cases cb fb base visited q hq
      rcases hcase with ⟨hsnd, hfst⟩ | ⟨bs, hcb, a, ha, hqa⟩
      · refine ⟨?_, ?_⟩
        · rw [hsnd]; exact Reaches.refl base
        · rw [hsnd]; exact hfst
      · exfalso
        have := unseenCount_cons_lt cb visited base (by rw [hcb]; rfl) hv
        omega
  | succ N ih =>
      intro visited base q hb hq
      obtain ⟨hv, hcase⟩ := collectFinal_cases cb fb base visited q hq
      rcases hcase with ⟨hsnd, hfst⟩ | ⟨bs, hcb, a, ha, hqa⟩
      · refine ⟨?_, ?_⟩
        · rw [hsnd]; exact Reaches.refl base
        · rw [hsnd]; exact hfst
      · have hlt := unseenCount_cons_lt cb visited base (by rw [hcb]; rfl) hv
        have hrec := ih (base :: visited) a q (by omega) hqa
        exact ⟨Reaches.step base a q.snd bs hcb ha hrec.1, hrec.2⟩

theorem collectFinal_complete (cb fb : List (String × List String)) :
    ∀ (n : Nat) (visited : List String) (b B mn : String),
      ChainAvoid cb visited n b B → mn ∈ (Spice.alookup fb B).getD [] →
      (Spice.alookup (collectFinalFromBase cb fb b visited) mn).isSome := by
  intro n
  induction n using Nat.strong_induction_on with
  | _ n ih =>
      intro visited b B mn hch hm
      cases hch with
      | refl _ hv =>
          exact collectFinal_key_intro cb fb b visited mn hv (Or.inl hm)
      | step n2 _ c _ bs hb h1 h2 h3 =>
          rcases chain_decompose cb visited b n2 c B h3 with ⟨k, hk, hch2⟩ | ⟨j, hj, hch2⟩
          · apply collectFinal_key_intro cb fb b visited mn hb
            right
            exact ⟨bs, h1, c, h2, ih k (by omega) (b :: visited) c B mn hch2 hm⟩
          · exact ih j (by omega) visited b B mn hch2 hm

end Spice.FinalChecker

namespace Spice.FinalChecker

theorem collectInherited_isSome_iff (cb fb : List (String × List String))
    (bases : List String) (mn : String) :
    (Spice.alookup (collectInheritedFinalMethods cb fb bases) mn).isSome ↔
      ∃ b ∈ bases, ∃ B, Reaches cb b B ∧ mn ∈ (Spice.alookup fb B).getD [] := by
  unfold collectInheritedFinalMethods
  rw [Spice.foldl_merge_isSome bases (fun b => collectFinalFromBase cb fb b [])]
  constructor
  · rintro (hin | ⟨b, hb, p, hp, hfst⟩)
    · simp [Spice.alookup] at hin
    · obtain ⟨hr, hf⟩ := collectFinal_sound cb fb (unseenCount cb []) [] b p
        (Nat.le_refl _) hp
      refine ⟨b, hb, p.snd, hr, ?_⟩
      rw [← hfst]
      exact hf
  · rintro ⟨b, hb, B, hr, hm⟩
    right
    obtain ⟨n, hch⟩ := reaches_chain cb b B hr
    have hsome := collectFinal_complete cb fb n [] b B mn hch hm
    obtain ⟨p, hp, hf⟩ := (Spice.alookup_isSome_iff _ mn).mp hsome
    exact ⟨b, hb, p, hp, hf⟩

theorem collectInherited_origin (cb fb : List (String × List String))
    (bases : List String) (mn origin : String)
    (h : Spice.alookup (collectInheritedFinalMethods cb fb bases) mn = some origin) :
    (∃ b ∈ bases, Reaches cb b origin) ∧ mn ∈ (Spice.alookup fb origin).getD [] := by
  have hmem := Spice.alookup_mem _ mn origin h
  unfold collectInheritedFinalMethods at hmem
  rcases Spice.foldl_merge_mem bases (fun b => collectFinalFromBase cb fb b [])
      [] (mn, origin) hmem with h2 | ⟨b, hb, hq⟩
  · cases h2
  · obtain ⟨hr, hf⟩ := collectFinal_sound cb fb (unseenCount cb []) [] b (mn, origin)
      (Nat.le_refl _) hq
    exact ⟨⟨b, hb, hr⟩, hf⟩

theorem overrideErrorsFor_eq (cb fb : List (String × List String)) (className : String)
    (bases : List String) (body : List Node) :
    overrideErrorsFor cb fb className bases body =
      body.filterMap (fun mem =>
        match mem with
        | Node.funcDecl mn _ _ _ _ mline mcol =>
            match Spice.alookup (collectInheritedFinalMethods cb fb bases) mn with
            | some origin =>
                some { message := overrideErrMsg className mn origin
                       line := mline, column := mcol }
            | none => none
        | _ => none) := by
  unfold overrideErrorsFor
  dsimp only
  by_cases hi : collectInheritedFinalMethods cb fb bases = []
  · rw [if_pos hi]
    symm
    rw [List.filterMap_eq_nil]
    intro mem _
    cases mem <;> simp [hi, Spice.alookup]
  · rw [if_neg hi]

end Spice.FinalChecker

namespace Spice.FinalChecker

/-- C6: for every class the final checker's inherited-final-method map
contains a method name iff some declared base reaches (through the
transitive closure of the `bases` edges recorded in the unit, cycles broken
by the visited set) an ancestor whose final-method set contains that name;
the origin stored for the name is such a reachable declaring ancestor; and
`_check_final_method_overrides` emits, for every member method of the class
body whose name is in that map, exactly the diagnostic
`Class 'C' cannot override final method 'm' defined in 'B'` with `B` the
stored origin. -/
theorem spice_c6_final_override_inheritance :
    (∀ (cb fb : List (String × List String)) (bases : List String) (mn : String),
        (Spice.alookup (collectInheritedFinalMethods cb fb bases) mn).isSome ↔
          ∃ b ∈ bases, ∃ B, Reaches cb b B ∧ mn ∈ (Spice.alookup fb B).getD []) ∧
    (∀ (cb fb : List (String × List String)) (bases : List String) (mn origin : String),
        Spice.alookup (collectInheritedFinalMethods cb fb bases) mn = some origin →
          (∃ b ∈ bases, Reaches cb b origin) ∧ mn ∈ (Spice.alookup fb origin).getD []) ∧
    (∀ (cb fb : List (String × List String)) (className : String) (bases : List String)
        (body : List Node),
        overrideErrorsFor cb fb className bases body =
          body.filterMap (fun mem =>
            match mem with
            | Node.funcDecl mn _ _ _ _ mline mcol =>
                match Spice.alookup (collectInheritedFinalMethods cb fb bases) mn with
                | some origin =>
                    some { message := overrideErrMsg className mn origin
                           line := mline, column := mcol }
                | none => none
            | _ => none)) :=
  ⟨collectInherited_isSome_iff, collectInherited_origin, overrideErrorsFor_eq⟩

end Spice.FinalChecker

namespace Spice.FinalChecker

/-- Witness for C6 at a concrete unit: `class A { final def m }` and
`class C(A) { def m }` — the inherited map of `C` contains `m` with origin
`A`, `A` is reachable from the declared base list, and the override pass
emits exactly the diagnostic for `C.m`. -/
theorem spice_c6_final_override_inheritance_witness :
    (Spice.alookup (collectInheritedFinalMethods [("C", ["A"]), ("A", ([] : List String))]
        [("A", ["m"])] ["A"]) "m").isSome ∧
    ((∃ b ∈ ["A"], Reaches [("C", ["A"]), ("A", ([] : List String))] b "A") ∧
      "m" ∈ (Spice.alookup [("A", ["m"])] "A").getD []) ∧
    overrideErrorsFor [("C", ["A"]), ("A", ([] : List String))] [("A", ["m"])] "C" ["A"]
        [Node.funcDecl "m" [] [] none false 5 4] =
      [{ message := overrideErrMsg "C" "m" "A", line := 5, column := 4 }] := by
  have hA : collectFinalFromBase [("C", ["A"]), ("A", ([] : List String))]
      [("A", ["m"])] "A" [] = [("m", "A")] := by
    rw [collectFinalFromBase.eq_def]
    simp [Spice.alookup]
  have heval : Spice.alookup (collectInheritedFinalMethods
      [("C", ["A"]), ("A", ([] : List String))] [("A", ["m"])] ["A"]) "m" = some "A" := by
    simp [collectInheritedFinalMethods, hA, Spice.asetdefault, Spice.alookup]
  refine ⟨?_, ?_, ?_⟩
  · exact (spice_c6_final_override_inheritance.1 _ _ ["A"] "m").mpr
      ⟨"A", by simp, "A", Reaches.refl "A", by simp [Spice.alookup]⟩
  · exact spice_c6_final_override_inheritance.2.1 _ _ ["A"] "m" "A" heval
  · rw [spice_c6_final_override_inheritance.2.2]
    simp [List.filterMap_cons, heval, overrideErrMsg]

end Spice.FinalChecker
